import Mathlib

/-!
Verification development for the `target-postgres` streaming loader.

The Python modules under `target_postgres/` are shallowly embedded:

* `singer_stream.py` (`BufferedSingerStream`) — buffered, validated record
  accumulation with table-version tracking;
* `sql_base.py` (`_denest_record` / `_denest_subrecord` / `_denest_records`,
  `SQLInterface.upsert_table_helper`, `_mapping_name`, `_get_mapping`) —
  record denesting and remote-schema reconciliation;
* `postgres.py` (`PostgresTarget.write_batch`, `process_record_message`,
  and the `denest_*` methods, which are verbatim copies of the `sql_base`
  ones) — the transactional batch writer.

JSON values are modelled by an inductive `Value`; Python dictionaries by
association lists with first-occurrence lookup and in-place overwrite
(`dget` / `dinsert`), which matches CPython's insertion-ordered dicts.
External collaborators that are not part of the sources (the `jsonschema`
validator, `pysize.get_size`, `arrow` timestamps, `uuid`, and the psycopg2
connection) enter as explicit function or oracle parameters. Functions of
the repository's `json_schema` module that the sources call but whose
definitions are not in the sources are modelled from the specification and
say so in their doc comments.
-/

namespace TargetPostgres

/-- JSON-ish runtime values as handled by the Python code: `None`, booleans,
integers, strings, lists and dictionaries. -/
inductive Value where
  | vnull
  | vbool (b : Bool)
  | vint (n : Int)
  | vstr (s : String)
  | varr (items : List Value)
  | vobj (fields : List (String × Value))

/-- A Python dictionary with string keys, in insertion order. -/
abbrev Fields := List (String × Value)

/-- Dictionary lookup (`d[k]` / `d.get(k)`): the first binding of `k`. -/
def dget (fs : Fields) (k : String) : Option Value :=
  match fs with
  | [] => none
  | (k', v) :: rest => if k' = k then some v else dget rest k

/-- Dictionary assignment `d[k] = v`: overwrite in place if `k` is bound,
else append at the end, as CPython's insertion-ordered dicts do. -/
def dinsert (fs : Fields) (k : String) (v : Value) : Fields :=
  match fs with
  | [] => [(k, v)]
  | (k', v') :: rest =>
      if k' = k then (k', v) :: rest else (k', v') :: dinsert rest k v

/-- A `value is None or a scalar literal` test: true for booleans, integers
and strings; false for `None`, lists and dictionaries. -/
def isScalarLit (v : Value) : Bool :=
  match v with
  | .vbool _ => true
  | .vint _ => true
  | .vstr _ => true
  | _ => false

@[simp] theorem dget_nil (k : String) : dget [] k = none := rfl

theorem dget_cons (k k' : String) (v : Value) (fs : Fields) :
    dget ((k', v) :: fs) k = if k' = k then some v else dget fs k := rfl

theorem dget_dinsert_self (fs : Fields) (k : String) (v : Value) :
    dget (dinsert fs k v) k = some v := by
  induction fs with
  | nil => simp [dinsert, dget]
  | cons hd tl ih =>
      obtain ⟨k', v'⟩ := hd
      by_cases h : k' = k
      · simp [dinsert, dget, h]
      · simp [dinsert, dget, h, ih]

theorem dget_dinsert_ne (fs : Fields) (k k' : String) (v : Value)
    (h : k ≠ k') : dget (dinsert fs k v) k' = dget fs k' :=
  by
  induction fs with
  | nil => simp [dinsert, dget, h]
  | cons hd tl ih =>
      obtain ⟨k0, v0⟩ := hd
      by_cases h0 : k0 = k
      · subst h0
        simp [dinsert, dget, h]
      · simp [dinsert, dget, h0, ih]

theorem dget_mem {fs : Fields} {k : String} {v : Value}
    (h : dget fs k = some v) : (k, v) ∈ fs := by
  induction fs with
  | nil => simp [dget] at h
  | cons hd tl ih =>
      obtain ⟨k0, v0⟩ := hd
      by_cases h0 : k0 = k
      · subst h0
        simp [dget] at h
        simp [h]
      · simp [dget, h0] at h
        exact List.mem_cons_of_mem _ (ih h)

theorem keys_nodup_cons_iff {k0 : String} {v0 : Value} {tl : Fields} :
    (((k0, v0) :: tl).map Prod.fst).Nodup ↔
      (∀ x : Value, (k0, x) ∉ tl) ∧ (tl.map Prod.fst).Nodup := by
  simp

theorem mem_dget {fs : Fields} {k : String} {v : Value}
    (hnd : (fs.map Prod.fst).Nodup) (h : (k, v) ∈ fs) :
    dget fs k = some v := by
  induction fs with
  | nil => simp at h
  | cons hd tl ih =>
      obtain ⟨k0, v0⟩ := hd
      have hnd' := keys_nodup_cons_iff.mp hnd
      rcases List.mem_cons.mp h with h1 | h1
      · have hk : k0 = k := congrArg Prod.fst h1.symm
        have hv : v0 = v := congrArg Prod.snd h1.symm
        subst hk; subst hv
        simp [dget]
      · have hk0 : k0 ≠ k := by
          intro hEq
          subst hEq
          exact hnd'.1 v h1
        simp [dget, hk0]
        exact ih hnd'.2 h1

theorem mem_dinsert {fs : Fields} {k : String} {v : Value} {p : String × Value}
    (h : p ∈ dinsert fs k v) : p ∈ fs ∨ p = (k, v) := by
  induction fs with
  | nil => simp [dinsert] at h; simp [h]
  | cons hd tl ih =>
      obtain ⟨k0, v0⟩ := hd
      by_cases h0 : k0 = k
      · simp [dinsert, h0] at h
        rcases h with h | h
        · right; simp [h, h0]
        · left; exact List.mem_cons_of_mem _ h
      · simp [dinsert, h0] at h
        rcases h with h | h
        · left; simp [h]
        · rcases ih h with h1 | h1
          · left; exact List.mem_cons_of_mem _ h1
          · right; exact h1

theorem dinsert_keys_nodup {fs : Fields} (k : String) (v : Value)
    (hnd : (fs.map Prod.fst).Nodup) :
    ((dinsert fs k v).map Prod.fst).Nodup := by
  induction fs with
  | nil => simp [dinsert]
  | cons hd tl ih =>
      obtain ⟨k0, v0⟩ := hd
      have hnd' := keys_nodup_cons_iff.mp hnd
      by_cases h0 : k0 = k
      · subst h0
        simp only [dinsert, if_pos rfl]
        exact keys_nodup_cons_iff.mpr hnd'
      · simp only [dinsert, if_neg h0]
        rw [keys_nodup_cons_iff]
        refine ⟨?_, ih hnd'.2⟩
        intro x hx
        rcases mem_dinsert hx with h1 | h1
        · exact hnd'.1 x h1
        · exact h0 (congrArg Prod.fst h1)

/-! Embedding of `singer_stream.py` (`BufferedSingerStream`).

The jsonschema `Draft4Validator` and `pysize.get_size` are external
libraries; they enter `add_record_message` as parameters `validator`
(returning `some errorMessage` when `validate` raises `ValidationError`)
and `getSize`. -/

/-- The metadata column names of `singer_stream.py`. -/
def SINGER_RECEIVED_AT : String := "_sdc_received_at"

/-- Column name constant from `singer_stream.py`. -/
def SINGER_BATCHED_AT : String := "_sdc_batched_at"

/-- Column name constant from `singer_stream.py`. -/
def SINGER_SEQUENCE : String := "_sdc_sequence"

/-- Column name constant from `singer_stream.py`. -/
def SINGER_TABLE_VERSION : String := "_sdc_table_version"

/-- Column name constant from `singer_stream.py`. -/
def SINGER_PK : String := "_sdc_primary_key"

/-- Column-name stem of `SINGER_SOURCE_PK_PREFIX` in `singer_stream.py`. -/
def SINGER_SOURCE_PK : String := "_sdc_source_key_"

/-- Rendering of `SINGER_LEVEL.format(i)`, the string
`_sdc_level_<i>_id` of `singer_stream.py`. -/
def singerLevel (i : Int) : String := "_sdc_level_" ++ toString i ++ "_id"

/-- A Singer RECORD message as consumed by `add_record_message` and
`process_record_message`: the `record` payload plus the optional
`version`, `time_extracted` and `sequence` keys (`none` models key
absence). -/
structure RecordMessage where
  record : Fields
  version : Option Int
  timeExtracted : Option String
  sequence : Option Int

/-- The mutable state of a `BufferedSingerStream`: the private `__buffer`,
`__count`, `__size` and `__lifetime_max_version` fields together with the
public configuration attributes set by `__init__`. -/
structure BufferedStream where
  stream : String
  keyProperties : List String
  useUuidPk : Bool
  invalidRecords : List (String × RecordMessage)
  invalidRecordsDetect : Bool
  invalidRecordsThreshold : Nat
  maxRows : Nat
  maxBufferSize : Nat
  buffer : List RecordMessage
  count : Nat
  size : Nat
  lifetimeMaxVersion : Option Int

/-- Observable log warnings of `add_record_message` (`LOGGER.debug`
lines that start with `WARNING:`). -/
inductive StreamWarn where
  | droppedRecords (count : Nat) (oldVersion : Option Int) (newVersion : Int)
  | versionMismatch (expected got : Option Int)
deriving DecidableEq, Repr

/-- Result of one `add_record_message` call: the updated stream state, the
warnings logged, and — when `SingerStreamError` is raised — the
`invalid_records` payload the exception carries. -/
structure AddResult where
  state : BufferedStream
  warnings : List StreamWarn
  raised : Option (List (String × RecordMessage))

/-- `BufferedSingerStream.flush_buffer`: clear the buffer and zero the
`__size` and `__count` counters. -/
def flush_buffer (s : BufferedStream) : BufferedStream :=
  { s with buffer := [], size := 0, count := 0 }

/-- `BufferedSingerStream.__update_version`: a `None` version or one not
above the lifetime max is a no-op; otherwise warn if records are being
dropped, flush the buffer, and install the new lifetime max. -/
def update_version (s : BufferedStream) (version : Option Int) :
    BufferedStream × List StreamWarn :=
  match version with
  | none => (s, [])
  | some v =>
      match s.lifetimeMaxVersion with
      | some lv =>
          if lv ≥ v then
            (s, [])
          else
            ({ flush_buffer s with lifetimeMaxVersion := some v },
             if s.count ≠ 0 then [.droppedRecords s.count (some lv) v] else [])
      | none =>
          ({ flush_buffer s with lifetimeMaxVersion := some v },
           if s.count ≠ 0 then [.droppedRecords s.count none v] else [])

/-- `BufferedSingerStream.buffer_full`, translated branch by branch. -/
def buffer_full (s : BufferedStream) : Bool :=
  if s.count ≥ s.maxRows then
    true
  else if s.count > 0 then
    if s.size ≥ s.maxBufferSize then true else false
  else
    false

/-- `BufferedSingerStream.add_record_message`. `validator` models the
external `Draft4Validator` (`some msg` when validation raises), `getSize`
models `pysize.get_size`. A discarded record returns the state unchanged;
an invalid record is appended to `invalid_records` and, above the
threshold, `SingerStreamError` is raised carrying `invalid_records`. -/
def add_record_message (validator : Fields → Option String)
    (getSize : RecordMessage → Nat) (s : BufferedStream)
    (m : RecordMessage) : AddResult :=
  let s1w := update_version s m.version
  let s1 := s1w.1
  if s1.lifetimeMaxVersion ≠ m.version then
    { state := s1,
      warnings := s1w.2 ++ [.versionMismatch s1.lifetimeMaxVersion m.version],
      raised := none }
  else
    match validator m.record with
    | none =>
        { state := { s1 with
                      buffer := s1.buffer ++ [m],
                      size := s1.size + getSize m,
                      count := s1.count + 1 },
          warnings := s1w.2,
          raised := none }
    | some err =>
        let inv := s1.invalidRecords ++ [(err, m)]
        { state := { s1 with invalidRecords := inv },
          warnings := s1w.2,
          raised :=
            if s1.invalidRecordsDetect ∧ inv.length ≥ s1.invalidRecordsThreshold
            then some inv else none }

/-- Constructor defaulting from `__init__`: `max_rows or DEFAULT__MAX_ROWS`
and `max_buffer_size or DEFAULT__MAX_BUFFER_SIZE` (a falsey argument is
replaced by the default), with `invalid_records_detect` defaulting to true
and `invalid_records_threshold` to 0 when `None`. -/
def mkBufferedStream (stream : String) (keyProperties : List String)
    (useUuidPk : Bool) (invalidRecordsDetect : Option Bool)
    (invalidRecordsThreshold : Option Nat)
    (maxRows maxBufferSize : Nat) : BufferedStream :=
  { stream := stream
    keyProperties := keyProperties
    useUuidPk := useUuidPk
    invalidRecords := []
    invalidRecordsDetect := invalidRecordsDetect.getD true
    invalidRecordsThreshold := invalidRecordsThreshold.getD 0
    maxRows := if maxRows = 0 then 200000 else maxRows
    maxBufferSize := if maxBufferSize = 0 then 104857600 else maxBufferSize
    buffer := []
    count := 0
    size := 0
    lifetimeMaxVersion := none }

/-! Claims C8, C9, C10, C3 and C5 about `BufferedSingerStream`. -/

/-- C8: `buffer_full` is true exactly when `count ≥ max_rows` or
`count > 0 ∧ size ≥ max_buffer_size`; in particular, for any stream whose
`max_rows` is positive (which `__init__` guarantees, replacing a falsey
argument by the 200000 default), it is false whenever `count = 0`,
regardless of `size`. -/
theorem C8_buffer_full (s : BufferedStream) :
    (buffer_full s = true ↔
      (s.maxRows ≤ s.count ∨ (0 < s.count ∧ s.maxBufferSize ≤ s.size)))
    ∧ (0 < s.maxRows → s.count = 0 → buffer_full s = false)
    ∧ (∀ st kp u d t mbs,
        0 < (mkBufferedStream st kp u d t 0 mbs).maxRows
        ∧ ∀ mr, 0 < mr → 0 < (mkBufferedStream st kp u d t mr mbs).maxRows) := by
  refine ⟨?_, ?_, ?_⟩
  · unfold buffer_full
    split_ifs with h1 h2 h3 <;> simp_all
    all_goals omega
  · intro hmr hc
    unfold buffer_full
    split_ifs with h1 h2
    all_goals simp_all
  · intro st kp u d t mbs
    constructor
    · simp [mkBufferedStream]
    · intro mr hmr
      simp only [mkBufferedStream]
      split_ifs <;> omega

/-- C8 witness: evaluate the hypothesised conjuncts at a concrete state. -/
theorem C8_buffer_full_witness :
    (0 < (mkBufferedStream "s" [] false none none 10 10).maxRows →
      (mkBufferedStream "s" [] false none none 10 10).count = 0 →
      buffer_full (mkBufferedStream "s" [] false none none 10 10) = false) :=
  (C8_buffer_full (mkBufferedStream "s" [] false none none 10 10)).2.1

/-- C9: a record dropped because its version is below the lifetime max
leaves the stream state — buffer, `count`, `size`, everything — exactly as
it was. -/
theorem C9_stale_version_frame (validator : Fields → Option String)
    (getSize : RecordMessage → Nat) (s : BufferedStream) (m : RecordMessage)
    (v lv : Int) (hm : m.version = some v) (hl : s.lifetimeMaxVersion = some lv)
    (hlt : v < lv) :
    (add_record_message validator getSize s m).state = s := by
  have hge : lv ≥ v := le_of_lt hlt
  have hne : v ≠ lv := ne_of_lt hlt
  unfold add_record_message update_version
  rw [hm, hl]
  simp [hge, hne, Ne.symm hne, hl]

/-- C9 witness: evaluate the frame property at a concrete dropped record. -/
theorem C9_stale_version_frame_witness :
    (add_record_message (fun _ => none) (fun _ => 1)
        { mkBufferedStream "s" [] false none none 10 10 with
          lifetimeMaxVersion := some 5 }
        { record := [], version := some 0, timeExtracted := none,
          sequence := none }).state
      = { mkBufferedStream "s" [] false none none 10 10 with
          lifetimeMaxVersion := some 5 } :=
  C9_stale_version_frame (fun _ => none) (fun _ => 1) _ _ 0 5 rfl rfl
    (by norm_num)

/-- C10: once some versioned record has been accepted
(`lifetime_max_version` is set), a record message with no version is
dropped outright: the state (buffer, counters, invalid records) is
untouched, no validation happens, and only the mismatch warning is
logged. -/
theorem C10_none_version_dropped (validator : Fields → Option String)
    (getSize : RecordMessage → Nat) (s : BufferedStream) (m : RecordMessage)
    (v : Int) (hl : s.lifetimeMaxVersion = some v) (hm : m.version = none) :
    add_record_message validator getSize s m =
      { state := s,
        warnings := [.versionMismatch (some v) none],
        raised := none } := by
  unfold add_record_message update_version
  rw [hm, hl]
  simp [hl]

/-- C10 witness: a concrete no-version record against a stream at
version 5 is dropped without touching the state. -/
theorem C10_none_version_dropped_witness :
    add_record_message (fun _ => some "boom") (fun _ => 1)
        { mkBufferedStream "s" [] false none none 10 10 with
          lifetimeMaxVersion := some 5 }
        { record := [], version := none, timeExtracted := none,
          sequence := none }
      = { state := { mkBufferedStream "s" [] false none none 10 10 with
                     lifetimeMaxVersion := some 5 },
          warnings := [.versionMismatch (some 5) none],
          raised := none } :=
  C10_none_version_dropped (fun _ => some "boom") (fun _ => 1) _ _ 5 rfl rfl

/-- Helper for the C3 version-bump statement: `update_version` on a
version strictly above the lifetime max (or with no lifetime max yet)
flushes and installs the new version, warning when records are dropped. -/
theorem update_version_bump (s : BufferedStream) (v : Int)
    (h : s.lifetimeMaxVersion = none ∨
         (∃ lv, s.lifetimeMaxVersion = some lv ∧ lv < v)) :
    update_version s (some v) =
      ({ flush_buffer s with lifetimeMaxVersion := some v },
       if s.count ≠ 0 then [.droppedRecords s.count s.lifetimeMaxVersion v]
       else []) := by
  rcases h with h | ⟨lv, h, hlt⟩
  · unfold update_version
    rw [h]
  · unfold update_version
    rw [h]
    simp [not_le.mpr hlt]

/-- Helper for the C3 statement: `update_version` at the current lifetime
max is a no-op. -/
theorem update_version_noop (s : BufferedStream) (v : Int)
    (h : s.lifetimeMaxVersion = some v) :
    update_version s (some v) = (s, []) := by
  unfold update_version
  rw [h]
  simp

/-- C3: a record message whose version exceeds the lifetime max (or
arrives when no lifetime max is set) first flushes the buffer — warning
with the dropped count when records are dropped — installs the new
lifetime max, and is then processed exactly as it would be against the
flushed stream; a record whose version is below the lifetime max is
dropped with a warning, leaving the state untouched. -/
theorem C3_version_update (validator : Fields → Option String)
    (getSize : RecordMessage → Nat) (s : BufferedStream) (m : RecordMessage)
    (v : Int) (hm : m.version = some v) :
    ((s.lifetimeMaxVersion = none ∨
        (∃ lv, s.lifetimeMaxVersion = some lv ∧ lv < v)) →
      add_record_message validator getSize s m =
        { add_record_message validator getSize
            { flush_buffer s with lifetimeMaxVersion := some v } m with
          warnings :=
            (if s.count ≠ 0
             then [StreamWarn.droppedRecords s.count s.lifetimeMaxVersion v]
             else [])
            ++ (add_record_message validator getSize
                  { flush_buffer s with lifetimeMaxVersion := some v }
                  m).warnings }
      ∧ (add_record_message validator getSize s m).state.lifetimeMaxVersion
          = some v)
    ∧ (∀ lv, s.lifetimeMaxVersion = some lv → v < lv →
        add_record_message validator getSize s m =
          { state := s,
            warnings := [StreamWarn.versionMismatch (some lv) (some v)],
            raised := none }) := by
  constructor
  · intro h
    have hbump := update_version_bump s v h
    have hnoop := update_version_noop
      { flush_buffer s with lifetimeMaxVersion := some v } v rfl
    have hmain :
        add_record_message validator getSize s m =
          { add_record_message validator getSize
              { flush_buffer s with lifetimeMaxVersion := some v } m with
            warnings :=
              (if s.count ≠ 0
               then [StreamWarn.droppedRecords s.count s.lifetimeMaxVersion v]
               else [])
              ++ (add_record_message validator getSize
                    { flush_buffer s with lifetimeMaxVersion := some v }
                    m).warnings } := by
      unfold add_record_message
      rw [hm, hbump, hnoop]
      cases validator m.record <;> simp
    refine ⟨hmain, ?_⟩
    rw [hmain]
    unfold add_record_message
    rw [hm, hnoop]
    cases validator m.record <;> simp
  · intro lv hl hlt
    unfold add_record_message update_version
    rw [hm, hl]
    have hge : lv ≥ v := le_of_lt hlt
    have hne : v ≠ lv := ne_of_lt hlt
    simp [hge, hne, Ne.symm hne, hl]

/-- C3 witness: a concrete version bump (from no lifetime max) followed by
the resulting lifetime max. -/
theorem C3_version_update_witness :
    ({ record := [], version := some (3 : Int), timeExtracted := none,
       sequence := none : RecordMessage }.version = some 3)
    ∧ (add_record_message (fun _ => none) (fun _ => 1)
          (mkBufferedStream "s" [] false none none 10 10)
          { record := [], version := some 3, timeExtracted := none,
            sequence := none }).state.lifetimeMaxVersion = some 3 :=
  ⟨rfl,
   ((C3_version_update (fun _ => none) (fun _ => 1)
        (mkBufferedStream "s" [] false none none 10 10)
        { record := [], version := some 3, timeExtracted := none,
          sequence := none } 3 rfl).1 (Or.inl rfl)).2⟩

/-- Validator used by the C5 scenario: every record fails validation. -/
def c5Validator : Fields → Option String := fun _ => some "invalid"

/-- Size estimator used by the C5 scenario. -/
def c5Size : RecordMessage → Nat := fun _ => 1

/-- Record messages fed in the C5 scenario. -/
def c5Msg (i : Int) : RecordMessage :=
  { record := [("a", .vint i)], version := none, timeExtracted := none,
    sequence := none }

/-- Stream of the C5 scenario: `invalid_records_detect = true`,
`invalid_records_threshold = 2`. -/
def c5Stream : BufferedStream :=
  mkBufferedStream "users" [] false (some true) (some 2) 0 0

/-- C5: a record failing validation is appended to `invalid_records`; the
`SingerStreamError` is raised exactly when `invalid_records_detect` holds
and the accumulated invalid-record count reaches the threshold, and it
carries the whole `invalid_records` list. With `detect = true` and
threshold 2, three consecutive invalid records raise on the third call an
error carrying all three validation errors (the second call already
raises, carrying the first two). -/
theorem C5_invalid_records_threshold :
    (∀ (validator : Fields → Option String) (getSize : RecordMessage → Nat)
        (s : BufferedStream) (m : RecordMessage) (err : String),
        m.version = s.lifetimeMaxVersion →
        validator m.record = some err →
        add_record_message validator getSize s m =
          { state := { s with invalidRecords := s.invalidRecords ++ [(err, m)] },
            warnings := [],
            raised :=
              if s.invalidRecordsDetect ∧
                  s.invalidRecordsThreshold ≤ s.invalidRecords.length + 1 then
                some (s.invalidRecords ++ [(err, m)])
              else none })
    ∧ (add_record_message c5Validator c5Size c5Stream (c5Msg 1)).raised = none
    ∧ (add_record_message c5Validator c5Size
         (add_record_message c5Validator c5Size c5Stream (c5Msg 1)).state
         (c5Msg 2)).raised
        = some [("invalid", c5Msg 1), ("invalid", c5Msg 2)]
    ∧ (add_record_message c5Validator c5Size
         (add_record_message c5Validator c5Size
           (add_record_message c5Validator c5Size c5Stream (c5Msg 1)).state
           (c5Msg 2)).state
         (c5Msg 3)).raised
        = some [("invalid", c5Msg 1), ("invalid", c5Msg 2),
                ("invalid", c5Msg 3)] := by
  refine ⟨?_, ?_, ?_, ?_⟩
  · intro validator getSize s m err hver hinv
    have hs : s.lifetimeMaxVersion = m.version := hver.symm
    cases hv : m.version with
    | none =>
        rw [hv] at hs
        unfold add_record_message update_version
        rw [hv, hs]
        simp [hinv, hs]
    | some v =>
        rw [hv] at hs
        unfold add_record_message update_version
        rw [hv, hs]
        simp [hinv, hs]
  · rfl
  · rfl
  · rfl

/-- C5 witness: the general conjunct applied to the first scenario call. -/
theorem C5_invalid_records_threshold_witness :
    (c5Msg 1).version = c5Stream.lifetimeMaxVersion
    ∧ add_record_message c5Validator c5Size c5Stream (c5Msg 1) =
        { state := { c5Stream with
                     invalidRecords :=
                       c5Stream.invalidRecords ++ [("invalid", c5Msg 1)] },
          warnings := [],
          raised :=
            if c5Stream.invalidRecordsDetect ∧
                c5Stream.invalidRecordsThreshold ≤
                  c5Stream.invalidRecords.length + 1 then
              some (c5Stream.invalidRecords ++ [("invalid", c5Msg 1)])
            else none } :=
  ⟨rfl,
   C5_invalid_records_threshold.1 c5Validator c5Size c5Stream (c5Msg 1)
     "invalid" rfl rfl⟩

/-! Embedding of the record denester of `sql_base.py`
(`_denest_subrecord`, `_denest_record`, `_denest_records`).

The methods `PostgresTarget.denest_subrecord` / `denest_record` /
`denest_records` in `postgres.py` are verbatim copies of these functions
(with `NESTED_SEPARATOR`, which equals the literal `__`, in place of
`SEPARATOR`), so this embedding covers both.

Python raises exceptions the embedding returns as `DenestErr`:

* `arity`: the recursive call
  `_denest_subrecord(table_name, next_path, parent_record, value, pk_fks,
  level)` passes six positional arguments to an eight-parameter function,
  so Python raises `TypeError` before entering the body (the source
  carries the comment `TODO: Throws exception due to wrong number of
  args.`);
* `typeErr`: item assignment `record[key] = value` on a non-dict record;
* `keyErr`: `record[key]` for a missing key property;
* `fuel`: out of recursion fuel. The Python functions can recurse
  unboundedly (`pk_fks` values are re-inserted into every nested record,
  and a `pk_fks` value that itself holds an array re-enters the
  recursion), so the embedding is fuel-indexed; any terminating Python run
  is reproduced by every sufficiently large fuel. -/

/-- The `SEPARATOR` constant of `sql_base.py` (and `NESTED_SEPARATOR` of
the module `sql_schema` imported by `postgres.py`): the literal `__`. -/
def SEP_TOKEN : String := "__"

/-- A `records_map`: table name to list of denested rows, insertion
ordered. -/
abbrev RMap := List (String × List Fields)

/-- Lookup in a `records_map`. -/
def rget (m : RMap) (k : String) : Option (List Fields) :=
  match m with
  | [] => none
  | (k', rs) :: rest => if k' = k then some rs else rget rest k

/-- The tail of `_denest_record`: create `records_map[table_name]` if
missing, then append the denested row. -/
def rappend (m : RMap) (k : String) (row : Fields) : RMap :=
  match m with
  | [] => [(k, [row])]
  | (k', rs) :: rest =>
      if k' = k then (k', rs ++ [row]) :: rest
      else (k', rs) :: rappend rest k row

/-- The `next_path` computation of `_denest_record`: at the top of a
record the property name itself, below a path the `__`-joined path. -/
def nextPath (cp : Option String) (prop : String) : String :=
  match cp with
  | some c => c ++ SEP_TOKEN ++ prop
  | none => prop

/-- Exceptions of the denester; see the section comment. -/
inductive DenestErr where
  | arity
  | typeErr
  | keyErr
  | fuel
deriving DecidableEq, Repr

/-- The top-level loop of `_denest_records` building `record_pk_fks` from
`key_properties`: `record_pk_fks[_sdc_source_key_<k>] = record[k]`, with
`KeyError` when `k` is unbound. -/
def source_pk_fks (fields : Fields) (acc : Fields) :
    List String → Except DenestErr Fields
  | [] => .ok acc
  | k :: ks =>
      match dget fields k with
      | none => .error .keyErr
      | some v => source_pk_fks fields (dinsert acc (SINGER_SOURCE_PK ++ k) v) ks

mutual

/-- `_denest_subrecord` of `sql_base.py`, one field at a time. An
object-valued field hits the buggy six-argument recursive call and raises
`TypeError` (`arity`); an array-valued field recurses through
`_denest_records`; anything else — `None` included — is written into
`parent_record[next_path]`. -/
def denest_subrecord (fuel : Nat) (table_name current_path : String)
    (parent_record : Fields) (fields : Fields) (records_map : RMap)
    (key_properties : List String) (pk_fks : Fields) (level : Int) :
    Except DenestErr (Fields × RMap) :=
  match fuel, fields with
  | 0, _ => .error .fuel
  | _ + 1, [] => .ok (parent_record, records_map)
  | f + 1, (prop, v) :: rest =>
      let next_path := current_path ++ SEP_TOKEN ++ prop
      match v with
      | .vobj _ => .error .arity
      | .varr items =>
          match denest_records_aux f (table_name ++ SEP_TOKEN ++ next_path)
              items records_map key_properties pk_fks (level + 1) 0 with
          | .error e => .error e
          | .ok rm' =>
              denest_subrecord (f + 1) table_name current_path parent_record
                rest rm' key_properties pk_fks level
      | x =>
          denest_subrecord (f + 1) table_name current_path
            (dinsert parent_record next_path x) rest records_map
            key_properties pk_fks level
  termination_by (fuel, fields.length)

/-- The field loop of `_denest_record` of `sql_base.py`: dict values enter
`_denest_subrecord` flattening into the row being built, list values enter
`_denest_records`, `None` is skipped (`nulls mess up nested objects`), and
literals are written at `next_path`. -/
def denest_record_fields (fuel : Nat) (table_name : String)
    (current_path : Option String) (denested_record : Fields)
    (fields : Fields) (records_map : RMap) (key_properties : List String)
    (pk_fks : Fields) (level : Int) : Except DenestErr (Fields × RMap) :=
  match fuel, fields with
  | 0, _ => .error .fuel
  | _ + 1, [] => .ok (denested_record, records_map)
  | f + 1, (prop, v) :: rest =>
      let next_path := nextPath current_path prop
      match v with
      | .vobj sub =>
          match denest_subrecord f table_name next_path denested_record sub
              records_map key_properties pk_fks level with
          | .error e => .error e
          | .ok (dr', rm') =>
              denest_record_fields (f + 1) table_name current_path dr' rest
                rm' key_properties pk_fks level
      | .varr items =>
          match denest_records_aux f (table_name ++ SEP_TOKEN ++ next_path)
              items records_map key_properties pk_fks (level + 1) 0 with
          | .error e => .error e
          | .ok rm' =>
              denest_record_fields (f + 1) table_name current_path
                denested_record rest rm' key_properties pk_fks level
      | .vnull =>
          denest_record_fields (f + 1) table_name current_path
            denested_record rest records_map key_properties pk_fks level
      | x =>
          denest_record_fields (f + 1) table_name current_path
            (dinsert denested_record next_path x) rest records_map
            key_properties pk_fks level
  termination_by (fuel, fields.length)

/-- `_denest_record` of `sql_base.py`: build the denested row from the
fields, then append it under `table_name` in the records map. -/
def denest_record (fuel : Nat) (table_name : String)
    (current_path : Option String) (fields : Fields) (records_map : RMap)
    (key_properties : List String) (pk_fks : Fields) (level : Int) :
    Except DenestErr RMap :=
  match fuel with
  | 0 => .error .fuel
  | f + 1 =>
      match denest_record_fields f table_name current_path [] fields
          records_map key_properties pk_fks level with
      | .error e => .error e
      | .ok (dr, rm') => .ok (rappend rm' table_name dr)
  termination_by (fuel, 0)

/-- `_denest_records` of `sql_base.py`, with the running `row_index` made
explicit. With a truthy `pk_fks`, each record receives a copy of `pk_fks`
plus `_sdc_level_<level>_id = row_index` merged in place before being
denested; at top level (falsey `pk_fks`) the `record_pk_fks` are built
from the key properties (plus `_sdc_sequence` when present) without
touching the record, and `row_index` is not advanced. -/
def denest_records_aux (fuel : Nat) (table_name : String)
    (records : List Value) (records_map : RMap)
    (key_properties : List String) (pk_fks : Fields) (level : Int)
    (row_index : Nat) : Except DenestErr RMap :=
  match fuel, records with
  | 0, _ => .error .fuel
  | _ + 1, [] => .ok records_map
  | f + 1, r :: rest =>
      if pk_fks.isEmpty then
        match r with
        | .vobj fields =>
            match source_pk_fks fields [] key_properties with
            | .error e => .error e
            | .ok rpf0 =>
                let rpf :=
                  match dget fields SINGER_SEQUENCE with
                  | some sv => dinsert rpf0 SINGER_SEQUENCE sv
                  | none => rpf0
                match denest_record f table_name none fields records_map
                    key_properties rpf level with
                | .error e => .error e
                | .ok rm' =>
                    denest_records_aux (f + 1) table_name rest rm'
                      key_properties pk_fks level row_index
        | _ => .error .typeErr
      else
        match r with
        | .vobj fields =>
            let record_pk_fks :=
              dinsert pk_fks (singerLevel level) (.vint row_index)
            let fields' :=
              record_pk_fks.foldl (fun acc kv => dinsert acc kv.1 kv.2) fields
            match denest_record f table_name none fields' records_map
                key_properties record_pk_fks level with
            | .error e => .error e
            | .ok rm' =>
                denest_records_aux (f + 1) table_name rest rm' key_properties
                  pk_fks level (row_index + 1)
        | _ => .error .typeErr
  termination_by (fuel, records.length)

end

/-- Entry point `_denest_records(table_name, records, records_map,
key_properties, pk_fks, level)`: the row index starts at 0. -/
def denest_records (fuel : Nat) (table_name : String) (records : List Value)
    (records_map : RMap) (key_properties : List String) (pk_fks : Fields)
    (level : Int) : Except DenestErr RMap :=
  denest_records_aux fuel table_name records records_map key_properties
    pk_fks level 0

/-! Lemmas about `rget` / `rappend` and name lengths, used to isolate the
rows a `_denest_records` call appends to its own table from the rows its
nested calls append to strictly longer table names. -/

theorem rget_rappend_self (m : RMap) (k : String) (row : Fields) :
    rget (rappend m k row) k = some ((rget m k).getD [] ++ [row]) := by
  induction m with
  | nil => simp [rappend, rget]
  | cons hd tl ih =>
      obtain ⟨k', rs⟩ := hd
      by_cases h : k' = k
      · simp [rappend, rget, h]
      · simp [rappend, rget, h, ih]

theorem rget_rappend_ne (m : RMap) (k k' : String) (row : Fields)
    (h : k' ≠ k) : rget (rappend m k row) k' = rget m k' := by
  induction m with
  | nil => simp [rappend, rget, h, Ne.symm h]
  | cons hd tl ih =>
      obtain ⟨k0, rs⟩ := hd
      by_cases h0 : k0 = k
      · subst h0
        simp [rappend, rget, Ne.symm h]
      · simp [rappend, rget, h0, ih]

theorem str_ne_of_length_lt {s t : String} (h : s.length < t.length) :
    s ≠ t := by
  intro he
  subst he
  exact lt_irrefl _ h

theorem length_lt_sep_append (tn np : String) :
    tn.length < (tn ++ SEP_TOKEN ++ np).length := by
  have h2 : SEP_TOKEN.length = 2 := rfl
  rw [String.length_append, String.length_append, h2]
  omega

/-- Frame property of the denester on the records map: a call working on
table `tn` changes `records_map` only at `tn` itself and at strictly
longer nested table names, so every strictly shorter name — and, for the
field loops, every name of length at most `tn`'s — keeps its rows. -/
theorem denest_rmap_frame :
    ∀ fuel : Nat,
      (∀ tn cp parent fs rm kps pks lvl out,
        denest_subrecord fuel tn cp parent fs rm kps pks lvl = .ok out →
        ∀ s : String, s.length ≤ tn.length → rget out.2 s = rget rm s)
      ∧ (∀ tn cp acc fs rm kps pks lvl out,
        denest_record_fields fuel tn cp acc fs rm kps pks lvl = .ok out →
        ∀ s : String, s.length ≤ tn.length → rget out.2 s = rget rm s)
      ∧ (∀ tn cp fs rm kps pks lvl rm',
        denest_record fuel tn cp fs rm kps pks lvl = .ok rm' →
        ∀ s : String, s.length < tn.length → rget rm' s = rget rm s)
      ∧ (∀ tn rs rm kps pks lvl idx rm',
        denest_records_aux fuel tn rs rm kps pks lvl idx = .ok rm' →
        ∀ s : String, s.length < tn.length → rget rm' s = rget rm s) := by
  intro fuel
  induction fuel using Nat.strong_induction_on with
  | _ fuel ih =>
    match fuel with
    | 0 =>
        refine ⟨?_, ?_, ?_, ?_⟩ <;>
          · intro tn
            intros
            simp only [denest_subrecord, denest_record_fields, denest_record,
              denest_records_aux] at *
            simp_all
    | f + 1 =>
      obtain ⟨ihSub, ihRf, ihRec, ihRecs⟩ := ih f (Nat.lt_succ_self f)
      refine ⟨?_, ?_, ?_, ?_⟩
      · -- denest_subrecord
        intro tn cp parent fs rm kps pks lvl out h s hs
        induction fs generalizing parent rm with
        | nil =>
            simp only [denest_subrecord] at h
            cases h
            rfl
        | cons hd tl ihl =>
            obtain ⟨prop, v⟩ := hd
            cases v with
            | vobj g => simp only [denest_subrecord] at h; simp at h
            | varr items =>
                simp only [denest_subrecord] at h
                rcases hr : denest_records_aux f
                    (tn ++ SEP_TOKEN ++ (cp ++ SEP_TOKEN ++ prop)) items rm
                    kps pks (lvl + 1) 0 with e | rm1
                · rw [hr] at h; simp at h
                · rw [hr] at h
                  simp only at h
                  have h1 := ihl _ _ h
                  have h2 := ihRecs _ _ _ _ _ _ _ _ hr s
                    (lt_of_le_of_lt hs (length_lt_sep_append _ _))
                  rw [h1, h2]
            | vnull => simp only [denest_subrecord] at h; exact ihl _ _ h
            | vbool b => simp only [denest_subrecord] at h; exact ihl _ _ h
            | vint n => simp only [denest_subrecord] at h; exact ihl _ _ h
            | vstr s' => simp only [denest_subrecord] at h; exact ihl _ _ h
      · -- denest_record_fields
        intro tn cp acc fs rm kps pks lvl out h s hs
        induction fs generalizing acc rm with
        | nil =>
            simp only [denest_record_fields] at h
            cases h
            rfl
        | cons hd tl ihl =>
            obtain ⟨prop, v⟩ := hd
            cases v with
            | vobj g =>
                simp only [denest_record_fields] at h
                rcases hr : denest_subrecord f tn (nextPath cp prop) acc g rm
                    kps pks lvl with e | pr
                · rw [hr] at h; simp at h
                · rw [hr] at h
                  simp only at h
                  have h1 := ihl _ _ h
                  have h2 := ihSub _ _ _ _ _ _ _ _ _ hr s hs
                  rw [h1, h2]
            | varr items =>
                simp only [denest_record_fields] at h
                rcases hr : denest_records_aux f
                    (tn ++ SEP_TOKEN ++ nextPath cp prop) items rm kps pks
                    (lvl + 1) 0 with e | rm1
                · rw [hr] at h; simp at h
                · rw [hr] at h
                  simp only at h
                  have h1 := ihl _ _ h
                  have h2 := ihRecs _ _ _ _ _ _ _ _ hr s
                    (lt_of_le_of_lt hs (length_lt_sep_append _ _))
                  rw [h1, h2]
            | vnull => simp only [denest_record_fields] at h; exact ihl _ _ h
            | vbool b => simp only [denest_record_fields] at h; exact ihl _ _ h
            | vint n => simp only [denest_record_fields] at h; exact ihl _ _ h
            | vstr s' => simp only [denest_record_fields] at h; exact ihl _ _ h
      · -- denest_record
        intro tn cp fs rm kps pks lvl rm' h s hs
        simp only [denest_record] at h
        rcases hr : denest_record_fields f tn cp [] fs rm kps pks lvl
            with e | pr
        · rw [hr] at h; simp at h
        · rw [hr] at h
          simp only at h
          cases h
          rw [rget_rappend_ne _ _ _ _ (str_ne_of_length_lt hs)]
          exact ihRf _ _ _ _ _ _ _ _ _ hr s (le_of_lt hs)
      · -- denest_records_aux
        intro tn rs rm kps pks lvl idx rm' h s hs
        induction rs generalizing rm idx with
        | nil =>
            simp only [denest_records_aux] at h
            cases h
            rfl
        | cons r rest ihl =>
            by_cases hpk : pks.isEmpty
            · cases r with
              | vobj fields =>
                  simp only [denest_records_aux, if_pos hpk] at h
                  rcases hsk : source_pk_fks fields [] kps with e | rpf0
                  · rw [hsk] at h; simp at h
                  · rw [hsk] at h
                    simp only at h
                    rcases hdr : denest_record f tn none fields rm kps
                        (match dget fields SINGER_SEQUENCE with
                         | some sv => dinsert rpf0 SINGER_SEQUENCE sv
                         | none => rpf0) lvl with e | rm1
                    · rw [hdr] at h; simp at h
                    · rw [hdr] at h
                      simp only at h
                      have h1 := ihl _ _ h
                      have h2 := ihRec _ _ _ _ _ _ _ _ hdr s hs
                      rw [h1, h2]
              | vnull => simp [denest_records_aux, if_pos hpk] at h
              | vbool b => simp [denest_records_aux, if_pos hpk] at h
              | vint n => simp [denest_records_aux, if_pos hpk] at h
              | vstr s' => simp [denest_records_aux, if_pos hpk] at h
              | varr items => simp [denest_records_aux, if_pos hpk] at h
            · cases r with
              | vobj fields =>
                  simp only [denest_records_aux, if_neg hpk] at h
                  rcases hdr : denest_record f tn none
                      ((dinsert pks (singerLevel lvl)
                          (.vint idx)).foldl
                        (fun acc kv => dinsert acc kv.1 kv.2) fields) rm kps
                      (dinsert pks (singerLevel lvl) (.vint idx)) lvl
                      with e | rm1
                  · rw [hdr] at h; simp at h
                  · rw [hdr] at h
                    simp only at h
                    have h1 := ihl _ _ h
                    have h2 := ihRec _ _ _ _ _ _ _ _ hdr s hs
                    rw [h1, h2]
              | vnull => simp [denest_records_aux, if_neg hpk] at h
              | vbool b => simp [denest_records_aux, if_neg hpk] at h
              | vint n => simp [denest_records_aux, if_neg hpk] at h
              | vstr s' => simp [denest_records_aux, if_neg hpk] at h
              | varr items => simp [denest_records_aux, if_neg hpk] at h

/-- The keys `_denest_subrecord` writes into its parent row all extend
`current_path ++ __`, so any other key of the row is untouched. -/
theorem sub_parent_frame (fuel : Nat) (tn cp : String) (parent g : Fields)
    (rm : RMap) (kps : List String) (pks : Fields) (lvl : Int)
    (out : Fields × RMap)
    (h : denest_subrecord fuel tn cp parent g rm kps pks lvl = .ok out)
    (k : String) (hk : ∀ q, k ≠ cp ++ SEP_TOKEN ++ q) :
    dget out.1 k = dget parent k := by
  induction g generalizing fuel parent rm with
  | nil =>
      match fuel with
      | 0 => simp only [denest_subrecord] at h; simp at h
      | f + 1 =>
          simp only [denest_subrecord] at h
          cases h
          rfl
  | cons hd tl ihl =>
      obtain ⟨q, u⟩ := hd
      match fuel with
      | 0 => simp only [denest_subrecord] at h; simp at h
      | f + 1 =>
          cases u with
          | vobj g2 => simp only [denest_subrecord] at h; simp at h
          | varr items =>
              simp only [denest_subrecord] at h
              rcases hr : denest_records_aux f
                  (tn ++ SEP_TOKEN ++ (cp ++ SEP_TOKEN ++ q)) items rm kps
                  pks (lvl + 1) 0 with e | rm1
              · rw [hr] at h; simp at h
              · rw [hr] at h
                simp only at h
                exact ihl _ _ _ h
          | vnull =>
              simp only [denest_subrecord] at h
              rw [ihl _ _ _ h, dget_dinsert_ne _ _ _ _ (Ne.symm (hk q))]
          | vbool b =>
              simp only [denest_subrecord] at h
              rw [ihl _ _ _ h, dget_dinsert_ne _ _ _ _ (Ne.symm (hk q))]
          | vint n =>
              simp only [denest_subrecord] at h
              rw [ihl _ _ _ h, dget_dinsert_ne _ _ _ _ (Ne.symm (hk q))]
          | vstr s' =>
              simp only [denest_subrecord] at h
              rw [ihl _ _ _ h, dget_dinsert_ne _ _ _ _ (Ne.symm (hk q))]

/-- A key that is neither a top-level field of the record nor a flattened
path of one of its object-valued fields keeps its value in the row the
field loop of `_denest_record` builds. -/
theorem rf_acc_frame (fuel : Nat) (tn : String) (acc fs : Fields)
    (rm : RMap) (kps : List String) (pks : Fields) (lvl : Int)
    (out : Fields × RMap)
    (h : denest_record_fields fuel tn none acc fs rm kps pks lvl = .ok out)
    (k : String)
    (hk1 : ∀ x : Value, (k, x) ∉ fs)
    (hk2 : ∀ p g q, (p, Value.vobj g) ∈ fs → k ≠ p ++ SEP_TOKEN ++ q) :
    dget out.1 k = dget acc k := by
  induction fs generalizing fuel acc rm with
  | nil =>
      match fuel with
      | 0 => simp only [denest_record_fields] at h; simp at h
      | f + 1 =>
          simp only [denest_record_fields] at h
          cases h
          rfl
  | cons hd tl ihl =>
      obtain ⟨p, w⟩ := hd
      have hk1' : ∀ x : Value, (k, x) ∉ tl :=
        fun x hx => hk1 x (List.mem_cons_of_mem _ hx)
      have hk2' : ∀ p' g q, (p', Value.vobj g) ∈ tl → k ≠ p' ++ SEP_TOKEN ++ q :=
        fun p' g q hx => hk2 p' g q (List.mem_cons_of_mem _ hx)
      have hkp : k ≠ p := by
        intro he
        subst he
        exact hk1 w (List.mem_cons_self _ _)
      match fuel with
      | 0 => simp only [denest_record_fields] at h; simp at h
      | f + 1 =>
          cases w with
          | vobj g =>
              simp only [denest_record_fields, nextPath] at h
              rcases hr : denest_subrecord f tn p acc g rm kps pks lvl
                  with e | pr
              · rw [hr] at h; simp at h
              · rw [hr] at h
                simp only at h
                rw [ihl _ _ _ h hk1' hk2']
                exact sub_parent_frame _ _ _ _ _ _ _ _ _ _ hr k
                  (fun q => hk2 p g q (List.mem_cons_self _ _))
          | varr items =>
              simp only [denest_record_fields, nextPath] at h
              rcases hr : denest_records_aux f (tn ++ SEP_TOKEN ++ p) items
                  rm kps pks (lvl + 1) 0 with e | rm1
              · rw [hr] at h; simp at h
              · rw [hr] at h
                simp only at h
                exact ihl _ _ _ h hk1' hk2'
          | vnull =>
              simp only [denest_record_fields] at h
              exact ihl _ _ _ h hk1' hk2'
          | vbool b =>
              simp only [denest_record_fields, nextPath] at h
              rw [ihl _ _ _ h hk1' hk2',
                dget_dinsert_ne _ _ _ _ (Ne.symm hkp)]
          | vint n =>
              simp only [denest_record_fields, nextPath] at h
              rw [ihl _ _ _ h hk1' hk2',
                dget_dinsert_ne _ _ _ _ (Ne.symm hkp)]
          | vstr s' =>
              simp only [denest_record_fields, nextPath] at h
              rw [ihl _ _ _ h hk1' hk2',
                dget_dinsert_ne _ _ _ _ (Ne.symm hkp)]

/-- A scalar-valued top-level field of a record (its keys distinct, the
field not shadowed by any object-flattened path) ends up verbatim in the
row the field loop of `_denest_record` builds. -/
theorem rf_scalar_content (fuel : Nat) (tn : String) (acc fs : Fields)
    (rm : RMap) (kps : List String) (pks : Fields) (lvl : Int)
    (out : Fields × RMap)
    (h : denest_record_fields fuel tn none acc fs rm kps pks lvl = .ok out)
    (hnd : (fs.map Prod.fst).Nodup)
    (k : String) (v : Value)
    (hmem : (k, v) ∈ fs) (hscal : isScalarLit v = true)
    (hk2 : ∀ p g q, (p, Value.vobj g) ∈ fs → k ≠ p ++ SEP_TOKEN ++ q) :
    dget out.1 k = some v := by
  induction fs generalizing fuel acc rm with
  | nil => cases hmem
  | cons hd tl ihl =>
      obtain ⟨p, w⟩ := hd
      have hnd' := keys_nodup_cons_iff.mp hnd
      have hk2' : ∀ p' g q, (p', Value.vobj g) ∈ tl → k ≠ p' ++ SEP_TOKEN ++ q :=
        fun p' g q hx => hk2 p' g q (List.mem_cons_of_mem _ hx)
      match fuel with
      | 0 => simp only [denest_record_fields] at h; simp at h
      | f + 1 =>
          rcases List.mem_cons.mp hmem with h1 | h1
          · -- the head is the scalar field in question
            have hkp : p = k := congrArg Prod.fst h1.symm
            have hwv : w = v := congrArg Prod.snd h1.symm
            subst hkp; subst hwv
            have htl : ∀ x : Value, (p, x) ∉ tl := hnd'.1
            cases w with
            | vnull => simp [isScalarLit] at hscal
            | varr items => simp [isScalarLit] at hscal
            | vobj g => simp [isScalarLit] at hscal
            | vbool b =>
                simp only [denest_record_fields, nextPath] at h
                rw [rf_acc_frame _ _ _ _ _ _ _ _ _ h p htl hk2',
                  dget_dinsert_self]
            | vint n =>
                simp only [denest_record_fields, nextPath] at h
                rw [rf_acc_frame _ _ _ _ _ _ _ _ _ h p htl hk2',
                  dget_dinsert_self]
            | vstr s' =>
                simp only [denest_record_fields, nextPath] at h
                rw [rf_acc_frame _ _ _ _ _ _ _ _ _ h p htl hk2',
                  dget_dinsert_self]
          · -- the field in question is further down
            cases w with
            | vobj g =>
                simp only [denest_record_fields, nextPath] at h
                rcases hr : denest_subrecord f tn p acc g rm kps pks lvl
                    with e | pr
                · rw [hr] at h; simp at h
                · rw [hr] at h
                  simp only at h
                  exact ihl _ _ _ h hnd'.2 h1 hk2'
            | varr items =>
                simp only [denest_record_fields, nextPath] at h
                rcases hr : denest_records_aux f (tn ++ SEP_TOKEN ++ p) items
                    rm kps pks (lvl + 1) 0 with e | rm1
                · rw [hr] at h; simp at h
                · rw [hr] at h
                  simp only at h
                  exact ihl _ _ _ h hnd'.2 h1 hk2'
            | vnull =>
                simp only [denest_record_fields] at h
                exact ihl _ _ _ h hnd'.2 h1 hk2'
            | vbool b =>
                simp only [denest_record_fields, nextPath] at h
                exact ihl _ _ _ h hnd'.2 h1 hk2'
            | vint n =>
                simp only [denest_record_fields, nextPath] at h
                exact ihl _ _ _ h hnd'.2 h1 hk2'
            | vstr s' =>
                simp only [denest_record_fields, nextPath] at h
                exact ihl _ _ _ h hnd'.2 h1 hk2'

/-- Merging `record_pk_fks` into a record (`record[key] = value` in a
loop) leaves keys outside `record_pk_fks` unchanged. -/
theorem dget_foldl_of_forall_ne (l : Fields) (fs : Fields) (k : String)
    (hk : ∀ x : Value, (k, x) ∉ l) :
    dget (l.foldl (fun acc kv => dinsert acc kv.1 kv.2) fs) k = dget fs k := by
  induction l generalizing fs with
  | nil => rfl
  | cons hd tl ih =>
      obtain ⟨k0, v0⟩ := hd
      have hk0 : k0 ≠ k := by
        intro he
        subst he
        exact hk v0 (List.mem_cons_self _ _)
      simp only [List.foldl_cons]
      rw [ih _ (fun x hx => hk x (List.mem_cons_of_mem _ hx)),
        dget_dinsert_ne _ _ _ _ hk0]

/-- Merging `record_pk_fks` into a record binds each of its keys to its
value (keys of `record_pk_fks` being distinct). -/
theorem dget_foldl_of_mem (l : Fields) (fs : Fields) (k : String) (v : Value)
    (hnd : (l.map Prod.fst).Nodup) (hmem : (k, v) ∈ l) :
    dget (l.foldl (fun acc kv => dinsert acc kv.1 kv.2) fs) k = some v := by
  induction l generalizing fs with
  | nil => cases hmem
  | cons hd tl ih =>
      obtain ⟨k0, v0⟩ := hd
      have hnd' := keys_nodup_cons_iff.mp hnd
      simp only [List.foldl_cons]
      rcases List.mem_cons.mp hmem with h1 | h1
      · have hkk : k0 = k := congrArg Prod.fst h1.symm
        have hvv : v0 = v := congrArg Prod.snd h1.symm
        subst hkk; subst hvv
        rw [dget_foldl_of_forall_ne _ _ _ hnd'.1, dget_dinsert_self]
      · exact ih (dinsert fs k0 v0) hnd'.2 h1

/-- Key distinctness is preserved by the `record_pk_fks` merge. -/
theorem foldl_dinsert_keys_nodup (l : Fields) (fs : Fields)
    (hnd : (fs.map Prod.fst).Nodup) :
    (((l.foldl (fun acc kv => dinsert acc kv.1 kv.2) fs)).map Prod.fst).Nodup := by
  induction l generalizing fs with
  | nil => exact hnd
  | cons hd tl ih =>
      simp only [List.foldl_cons]
      exact ih _ (dinsert_keys_nodup _ _ hnd)

/-- Any binding of the merged record comes from the record or from
`record_pk_fks`. -/
theorem mem_foldl_dinsert (l : Fields) (fs : Fields) (p : String × Value)
    (h : p ∈ l.foldl (fun acc kv => dinsert acc kv.1 kv.2) fs) :
    p ∈ fs ∨ p ∈ l := by
  induction l generalizing fs with
  | nil => exact Or.inl h
  | cons hd tl ih =>
      obtain ⟨k0, v0⟩ := hd
      simp only [List.foldl_cons] at h
      rcases ih _ h with h1 | h1
      · rcases mem_dinsert h1 with h2 | h2
        · exact Or.inl h2
        · exact Or.inr (h2 ▸ List.mem_cons_self _ _)
      · exact Or.inr (List.mem_cons_of_mem _ h1)

/-- Successful `_denest_record` runs decompose into the field loop
followed by the row append. -/
theorem denest_record_ok (f : Nat) (tn : String) (cp : Option String)
    (fs : Fields) (rm : RMap) (kps : List String) (pks : Fields) (lvl : Int)
    (rm' : RMap)
    (h : denest_record (f + 1) tn cp fs rm kps pks lvl = .ok rm') :
    ∃ dr rm1,
      denest_record_fields f tn cp [] fs rm kps pks lvl = .ok (dr, rm1)
      ∧ rm' = rappend rm1 tn dr := by
  simp only [denest_record] at h
  rcases hr : denest_record_fields f tn cp [] fs rm kps pks lvl with e | pr
  · rw [hr] at h; simp at h
  · obtain ⟨dr, rm1⟩ := pr
    rw [hr] at h
    simp only at h
    cases h
    exact ⟨dr, rm1, rfl, rfl⟩

/-- One record of a subtable batch: merging `record_pk_fks` into the
record and denesting appends exactly one row under the table, and that
row binds every key of `record_pk_fks` whose value is a scalar literal. -/
theorem denest_one_pk_record (f : Nat) (tn : String) (fields : Fields)
    (rm : RMap) (kps : List String) (rpf : Fields) (lvl : Int) (rm' : RMap)
    (h : denest_record (f + 1) tn none
          (rpf.foldl (fun acc kv => dinsert acc kv.1 kv.2) fields) rm kps
          rpf lvl = .ok rm')
    (hndf : (fields.map Prod.fst).Nodup)
    (hndr : (rpf.map Prod.fst).Nodup)
    (hrs : ∀ k v, (k, v) ∈ rpf → isScalarLit v = true)
    (hcol : ∀ k v p g q, (k, v) ∈ rpf → (p, Value.vobj g) ∈ fields →
        k ≠ p ++ SEP_TOKEN ++ q) :
    ∃ dr : Fields,
      (rget rm' tn).getD [] = (rget rm tn).getD [] ++ [dr]
      ∧ ∀ k v, (k, v) ∈ rpf → dget dr k = some v := by
  obtain ⟨dr, rm1, hrf, hap⟩ := denest_record_ok _ _ _ _ _ _ _ _ _ h
  have hframe := (denest_rmap_frame f).2.1 _ _ _ _ _ _ _ _ _ hrf tn
    (le_refl _)
  refine ⟨dr, ?_, ?_⟩
  · rw [hap, rget_rappend_self, Option.getD_some, hframe]
  · intro k v hkv
    have hget : dget
        (rpf.foldl (fun acc kv => dinsert acc kv.1 kv.2) fields) k = some v :=
      dget_foldl_of_mem _ _ _ _ hndr hkv
    have hmem' := dget_mem hget
    have hndm := foldl_dinsert_keys_nodup rpf fields hndf
    refine rf_scalar_content _ _ _ _ _ _ _ _ _ hrf hndm k v hmem'
      (hrs k v hkv) ?_
    intro p g q hpg
    rcases mem_foldl_dinsert _ _ _ hpg with h1 | h1
    · exact hcol k v p g q hkv h1
    · have := hrs p (Value.vobj g) h1
      simp [isScalarLit] at this

/-- Rows appended by `_denest_records` for a subtable (truthy `pk_fks`):
one row per source record in source order, row `i` carrying
`_sdc_level_<level>_id = idx + i` and every `pk_fks` binding. -/
theorem denest_records_rows (tn : String) :
    ∀ (records : List Value) (fuel : Nat) (rm : RMap) (kps : List String)
      (pks : Fields) (lvl : Int) (idx : Nat) (rm' : RMap),
      pks ≠ [] →
      (pks.map Prod.fst).Nodup →
      (∀ k v, (k, v) ∈ pks → isScalarLit v = true) →
      dget pks (singerLevel lvl) = none →
      (∀ r, r ∈ records → ∃ fields, r = Value.vobj fields
          ∧ (fields.map Prod.fst).Nodup
          ∧ (∀ p g q k', (p, Value.vobj g) ∈ fields →
              (k' = singerLevel lvl ∨ ∃ w, (k', w) ∈ pks) →
              k' ≠ p ++ SEP_TOKEN ++ q)) →
      denest_records_aux fuel tn records rm kps pks lvl idx = .ok rm' →
      ∃ rows : List Fields,
        (rget rm' tn).getD [] = (rget rm tn).getD [] ++ rows
        ∧ rows.length = records.length
        ∧ ∀ i : Nat, ∀ hi : i < rows.length,
            dget (rows.get ⟨i, hi⟩) (singerLevel lvl)
              = some (.vint (idx + i))
            ∧ ∀ k v, (k, v) ∈ pks → dget (rows.get ⟨i, hi⟩) k = some v := by
  intro records
  induction records with
  | nil =>
      intro fuel rm kps pks lvl idx rm' _ _ _ _ _ h
      match fuel with
      | 0 => simp only [denest_records_aux] at h; simp at h
      | f + 1 =>
          simp only [denest_records_aux] at h
          cases h
          exact ⟨[], by simp, rfl, fun i hi => absurd hi (by simp)⟩
  | cons r rest ihl =>
      intro fuel rm kps pks lvl idx rm' hne hnd hscal hlk hrecs h
      have hpe : pks.isEmpty = false := by
        cases pks with
        | nil => exact absurd rfl hne
        | cons a l => rfl
      obtain ⟨fields, hr0, hndf, hcolf⟩ := hrecs r (List.mem_cons_self _ _)
      subst hr0
      match fuel with
      | 0 => simp only [denest_records_aux] at h; simp at h
      | f + 1 =>
          simp only [denest_records_aux, hpe, Bool.false_eq_true,
            if_false] at h
          rcases hdr : denest_record f tn none
              ((dinsert pks (singerLevel lvl)
                  (.vint idx)).foldl
                (fun acc kv => dinsert acc kv.1 kv.2) fields) rm kps
              (dinsert pks (singerLevel lvl) (.vint idx)) lvl with e | rm1
          · rw [hdr] at h; simp at h
          · rw [hdr] at h
            simp only at h
            match f, hdr with
            | 0, hdr => simp only [denest_record] at hdr; simp at hdr
            | f1 + 1, hdr =>
              have hndr : ((dinsert pks (singerLevel lvl)
                  (.vint idx)).map Prod.fst).Nodup :=
                dinsert_keys_nodup _ _ hnd
              have hrs : ∀ k v,
                  (k, v) ∈ dinsert pks (singerLevel lvl) (.vint idx) →
                  isScalarLit v = true := by
                intro k v hkv
                rcases mem_dinsert hkv with h1 | h1
                · exact hscal k v h1
                · have hv : v = Value.vint idx := congrArg Prod.snd h1
                  rw [hv]
                  rfl
              have hcol : ∀ k v p g q,
                  (k, v) ∈ dinsert pks (singerLevel lvl) (.vint idx) →
                  (p, Value.vobj g) ∈ fields → k ≠ p ++ SEP_TOKEN ++ q := by
                intro k v p g q hkv hpg
                rcases mem_dinsert hkv with h1 | h1
                · exact hcolf p g q k hpg (Or.inr ⟨v, h1⟩)
                · have hk : k = singerLevel lvl := congrArg Prod.fst h1
                  rw [hk]
                  exact hcolf p g q _ hpg (Or.inl rfl)
              obtain ⟨dr, hdr1, hdr2⟩ := denest_one_pk_record f1 tn fields
                rm kps _ lvl rm1 hdr hndf hndr hrs hcol
              obtain ⟨rows', hrw1, hrw2, hrw3⟩ := ihl (f1 + 1 + 1) rm1 kps pks
                lvl (idx + 1) rm' hne hnd hscal hlk
                (fun r' hr' => hrecs r' (List.mem_cons_of_mem _ hr')) h
              refine ⟨dr :: rows', ?_, by simp [hrw2], ?_⟩
              · rw [hrw1, hdr1, List.append_assoc]
                rfl
              · intro i hi
                match i with
                | 0 =>
                    constructor
                    · have := hdr2 (singerLevel lvl) (.vint idx)
                        (dget_mem (dget_dinsert_self pks _ _))
                      simpa using this
                    · intro k v hkv
                      have hklk : k ≠ singerLevel lvl := by
                        intro he
                        subst he
                        rw [mem_dget hnd hkv] at hlk
                        cases hlk
                      have : (k, v) ∈ dinsert pks (singerLevel lvl)
                          (.vint idx) := by
                        have := dget_dinsert_ne pks (singerLevel lvl) k
                          (.vint idx) (Ne.symm hklk)
                        exact dget_mem (this ▸ mem_dget hnd hkv)
                      simpa using hdr2 k v this
                | i + 1 =>
                    have hi' : i < rows'.length := by
                      simpa using Nat.lt_of_succ_lt_succ hi
                    have := hrw3 i hi'
                    constructor
                    · have h0 := this.1
                      have harith : (↑(idx + 1) + ↑i : Int) = ↑idx + ↑(i + 1) := by
                        push_cast
                        ring
                      rw [harith] at h0
                      simpa using h0
                    · intro k v hkv
                      simpa using this.2 k v hkv

/-- C6: a non-empty `pk_fks` batch denested into a subtable produces its
rows in source order, one row per record, row `i` carrying the dense
0-based `_sdc_level_<level>_id = i`; every `pk_fks` binding (scalar
values, distinct keys, no flattened-path collision) is present in every
row, so in particular each `_sdc_source_key_<k>` equals the root record's
`k` value and every ancestor `_sdc_level_<j>_id` is defined and
integer-valued. -/
theorem C6_subtable_rows (fuel : Nat) (tn : String) (records : List Value)
    (rm : RMap) (kps : List String) (pks : Fields) (root : Fields)
    (lvl : Int) (rm' : RMap)
    (h1 : pks ≠ [])
    (h2 : (pks.map Prod.fst).Nodup)
    (h3 : ∀ k v, (k, v) ∈ pks → isScalarLit v = true)
    (h4 : dget pks (singerLevel lvl) = none)
    (h5 : ∀ r, r ∈ records → ∃ fields, r = Value.vobj fields
        ∧ (fields.map Prod.fst).Nodup
        ∧ (∀ p g q k', (p, Value.vobj g) ∈ fields →
            (k' = singerLevel lvl ∨ ∃ w, (k', w) ∈ pks) →
            k' ≠ p ++ SEP_TOKEN ++ q))
    (h6 : ∀ k, k ∈ kps → dget pks (SINGER_SOURCE_PK ++ k) = dget root k)
    (h7 : ∀ k, k ∈ kps → (dget root k).isSome = true)
    (h8 : ∀ j : Int, 0 ≤ j → j < lvl →
        ∃ n : Int, dget pks (singerLevel j) = some (.vint n))
    (hok : denest_records fuel tn records rm kps pks lvl = .ok rm') :
    ∃ rows : List Fields,
      (rget rm' tn).getD [] = (rget rm tn).getD [] ++ rows
      ∧ rows.length = records.length
      ∧ ∀ i : Nat, ∀ hi : i < rows.length,
          dget (rows.get ⟨i, hi⟩) (singerLevel lvl) = some (.vint i)
          ∧ (∀ k v, (k, v) ∈ pks → dget (rows.get ⟨i, hi⟩) k = some v)
          ∧ (∀ k, k ∈ kps →
              dget (rows.get ⟨i, hi⟩) (SINGER_SOURCE_PK ++ k) = dget root k)
          ∧ (∀ j : Int, 0 ≤ j → j < lvl →
              ∃ n : Int,
                dget (rows.get ⟨i, hi⟩) (singerLevel j) = some (.vint n)) := by
  obtain ⟨rows, hr1, hr2, hr3⟩ := denest_records_rows tn records fuel rm kps
    pks lvl 0 rm' h1 h2 h3 h4 h5 hok
  refine ⟨rows, hr1, hr2, ?_⟩
  intro i hi
  obtain ⟨hlvl, hprop⟩ := hr3 i hi
  refine ⟨by simpa using hlvl, hprop, ?_, ?_⟩
  · intro k hk
    obtain ⟨v, hv⟩ := Option.isSome_iff_exists.mp (h7 k hk)
    have hpk : dget pks (SINGER_SOURCE_PK ++ k) = some v := by
      rw [h6 k hk, hv]
    rw [hprop _ _ (dget_mem hpk), hv]
  · intro j hj1 hj2
    obtain ⟨n, hn⟩ := h8 j hj1 hj2
    exact ⟨n, hprop _ _ (dget_mem hn)⟩

/-- C6 witness: two subtable records under source key `id = 7` at level 0
produce two rows in order with dense level ids and the source key. -/
theorem C6_subtable_rows_witness :
    ([("_sdc_source_key_id", Value.vint 7)] : Fields) ≠ []
    ∧ denest_records 10 "users__tags"
        [Value.vobj [("x", Value.vint 5)], Value.vobj [("x", Value.vint 6)]]
        [] ["id"] [("_sdc_source_key_id", Value.vint 7)] 0
        = .ok [("users__tags",
            [[("x", Value.vint 5), ("_sdc_source_key_id", Value.vint 7),
              ("_sdc_level_0_id", Value.vint 0)],
             [("x", Value.vint 6), ("_sdc_source_key_id", Value.vint 7),
              ("_sdc_level_0_id", Value.vint 1)]])]
    ∧ ∃ rows : List Fields,
        (rget [("users__tags",
            [[("x", Value.vint 5), ("_sdc_source_key_id", Value.vint 7),
              ("_sdc_level_0_id", Value.vint 0)],
             [("x", Value.vint 6), ("_sdc_source_key_id", Value.vint 7),
              ("_sdc_level_0_id", Value.vint 1)]])] "users__tags").getD []
          = (rget ([] : RMap) "users__tags").getD [] ++ rows
        ∧ rows.length = 2
        ∧ ∀ i : Nat, ∀ hi : i < rows.length,
            dget (rows.get ⟨i, hi⟩) (singerLevel 0) = some (.vint i)
            ∧ (∀ k v, (k, v) ∈ ([("_sdc_source_key_id", Value.vint 7)] : Fields) →
                dget (rows.get ⟨i, hi⟩) k = some v)
            ∧ (∀ k, k ∈ ["id"] →
                dget (rows.get ⟨i, hi⟩) (SINGER_SOURCE_PK ++ k)
                  = dget [("id", Value.vint 7)] k)
            ∧ (∀ j : Int, 0 ≤ j → j < 0 →
                ∃ n : Int,
                  dget (rows.get ⟨i, hi⟩) (singerLevel j)
                    = some (.vint n)) := by
  have hsl : singerLevel 0 = "_sdc_level_0_id" := by decide
  have hok : denest_records 10 "users__tags"
      [Value.vobj [("x", Value.vint 5)], Value.vobj [("x", Value.vint 6)]]
      [] ["id"] [("_sdc_source_key_id", Value.vint 7)] 0
      = .ok [("users__tags",
          [[("x", Value.vint 5), ("_sdc_source_key_id", Value.vint 7),
            ("_sdc_level_0_id", Value.vint 0)],
           [("x", Value.vint 6), ("_sdc_source_key_id", Value.vint 7),
            ("_sdc_level_0_id", Value.vint 1)]])] := by
    simp [denest_records, denest_records_aux, denest_record,
      denest_record_fields, denest_subrecord, nextPath, dinsert, dget,
      rappend, hsl, SEP_TOKEN, source_pk_fks]
  refine ⟨by simp, hok, ?_⟩
  have hmain := C6_subtable_rows 10 "users__tags"
    [Value.vobj [("x", Value.vint 5)], Value.vobj [("x", Value.vint 6)]]
    [] ["id"] [("_sdc_source_key_id", Value.vint 7)] [("id", Value.vint 7)]
    0 _
    (by simp)
    (by simp)
    (by
      intro k v hkv
      simp at hkv
      rw [hkv.2]
      rfl)
    (by simp [dget, hsl])
    (by
      intro r hr
      simp at hr
      rcases hr with hr | hr <;>
        · subst hr
          refine ⟨_, rfl, by simp, ?_⟩
          intro p g q k' hpg hk'
          simp at hpg)
    (by
      intro k hk
      simp at hk
      subst hk
      simp [dget, SINGER_SOURCE_PK])
    (by
      intro k hk
      simp at hk
      subst hk
      simp [dget])
    (by
      intro j hj1 hj2
      exact absurd (lt_of_le_of_lt hj1 hj2) (lt_irrefl 0))
    hok
  simpa using hmain

/-- C4: a record with an object nested inside an object-valued property
crashes the denester instead of flattening the inner leaves: the
recursive call inside `_denest_subrecord` passes six positional arguments
to the eight-parameter function, so Python raises `TypeError` — the
embedding's `arity` error — for every such record, at any nesting
position and for any fuel. -/
theorem C4_nested_object_arity (fuel : Nat) (tn cp : String)
    (parent : Fields) (prop : String) (g rest : Fields) (rm : RMap)
    (kps : List String) (pks : Fields) (lvl : Int) :
    denest_subrecord (fuel + 1) tn cp parent
        ((prop, Value.vobj g) :: rest) rm kps pks lvl = .error .arity
    ∧ denest_record 3 "t" none
        [("a", Value.vobj [("b", Value.vobj [("c", Value.vint 1)])])]
        [] [] [] (-1) = .error .arity := by
  constructor
  · simp only [denest_subrecord]
  · simp [denest_record, denest_record_fields, denest_subrecord, nextPath]

/-- C7 counterexample: the record with a null inside an object-valued
property. Denesting `a = obj, a.b = null` produces a row in which the
flattened key `a__b` is present and bound to null — the claim says the
key would be absent. -/
theorem C7_null_nested_counterexample :
    denest_record 3 "t" none [("a", Value.vobj [("b", Value.vnull)])]
        [] [] [] (-1)
      = .ok [("t", [[("a__b", Value.vnull)]])]
    ∧ dget [("a__b", Value.vnull)] "a__b" = some Value.vnull := by
  constructor
  · simp [denest_record, denest_record_fields, denest_subrecord, nextPath,
      dinsert, rappend, SEP_TOKEN]
  · rfl

/-- C7 (amended): a null-valued property at the top level of a record is
skipped — it contributes nothing to the row or the records map — but a
null-valued property inside an object-valued property is written into the
parent row under its flattened `__` path key, bound to null. -/
theorem C7_null_handling (fuel : Nat) (tn : String) (cp : Option String)
    (acc : Fields) (p : String) (rest : Fields) (rm : RMap)
    (kps : List String) (pks : Fields) (lvl : Int) :
    denest_record_fields (fuel + 1) tn cp acc ((p, Value.vnull) :: rest) rm
        kps pks lvl
      = denest_record_fields (fuel + 1) tn cp acc rest rm kps pks lvl
    ∧ ∀ cps : String,
        denest_subrecord (fuel + 1) tn cps acc ((p, Value.vnull) :: rest) rm
            kps pks lvl
          = denest_subrecord (fuel + 1) tn cps
              (dinsert acc (cps ++ SEP_TOKEN ++ p) Value.vnull) rest rm kps
              pks lvl := by
  constructor
  · simp only [denest_record_fields]
  · intro cps
    simp only [denest_subrecord]

/-! Embedding of `PostgresTarget.write_batch` and
`PostgresTarget.process_record_message` from `postgres.py`.

The psycopg2 cursor is external; it enters as `WBOracle`. Everything the
body executes between the record-processing loop and `COMMIT` — metadata
fetch, the key-properties check, the schema upserts built on the missing
`sql_schema` module, and `persist_rows` — is abstracted into the single
oracle phase `middle`, because claim C1 is about the transactional frame:
which phase raised, whether ROLLBACK ran, what happened to the stream
buffer. `arrow`/`uuid` timestamps and UUIDs are the `batchedAt`,
`uuidStr`, `nowTs` parameters. -/

/-- A test for Python `record.get(key) is None`: the key is absent or
bound to `None`. -/
def isNoneVal : Option Value → Bool
  | none => true
  | some .vnull => true
  | some _ => false

/-- `PostgresTarget.process_record_message`, which mutates the `record`
payload of a buffered message in place: inject `_sdc_table_version`,
`_sdc_received_at` (from `time_extracted` when unset), the UUID primary
key when `use_uuid_pk`, `_sdc_batched_at`, and `_sdc_sequence` (from the
message or the current timestamp). -/
def process_record_message (useUuidPk : Bool) (batchedAt uuidStr : String)
    (nowTs : Int) (m : RecordMessage) : Fields :=
  let r := m.record
  let r := match m.version with
           | some v => dinsert r SINGER_TABLE_VERSION (.vint v)
           | none => r
  let r := match m.timeExtracted with
           | some t =>
               if isNoneVal (dget r SINGER_RECEIVED_AT) then
                 dinsert r SINGER_RECEIVED_AT (.vstr t)
               else r
           | none => r
  let r := if useUuidPk && isNoneVal (dget r SINGER_PK) then
             dinsert r SINGER_PK (.vstr uuidStr)
           else r
  let r := dinsert r SINGER_BATCHED_AT (.vstr batchedAt)
  match m.sequence with
  | some q => dinsert r SINGER_SEQUENCE (.vint q)
  | none => dinsert r SINGER_SEQUENCE (.vint nowTs)

/-- The in-place effect of the record-processing loop of `write_batch` on
the stream buffer: every buffered message keeps its identity but its
`record` payload is augmented with the batch metadata. -/
def process_buffer (batchedAt uuidStr : String) (nowTs : Int)
    (s : BufferedStream) : BufferedStream :=
  { s with buffer := s.buffer.map (fun m =>
      { m with record := process_record_message s.useUuidPk batchedAt
                           uuidStr nowTs m }) }

/-- Oracle for the external database in `write_batch`: each phase either
succeeds (`none`) or raises with a message. `middleErr` covers everything
between the processing loop and `COMMIT`; `ROLLBACK` is assumed to
succeed. -/
structure WBOracle where
  beginErr : Option String
  middleErr : Option String
  commitErr : Option String
deriving DecidableEq, Repr

/-- Database statements `write_batch` executed successfully, in order. -/
inductive DbEvent where
  | begin_
  | middle
  | commit
  | rollback
deriving DecidableEq, Repr

/-- The `PostgresError` raised by `write_batch`: its fixed message plus
the original error it wraps. -/
inductive PgError where
  | postgresError (message : String) (original : String)
deriving DecidableEq, Repr

/-- `PostgresTarget.write_batch`: empty buffers return immediately;
otherwise `BEGIN`, process all buffered records in place, run the body,
`COMMIT`, and — only after the `with` block exits without exception —
`flush_buffer`. Any exception triggers `ROLLBACK` and a `PostgresError`
wrapping the original error, leaving the buffer unflushed. -/
def write_batch (o : WBOracle) (batchedAt uuidStr : String) (nowTs : Int)
    (s : BufferedStream) :
    Except PgError Unit × BufferedStream × List DbEvent :=
  if s.count = 0 then
    (.ok (), s, [])
  else
    match o.beginErr with
    | some e =>
        (.error (.postgresError "Exception writing records" e), s,
         [.rollback])
    | none =>
        let s' := process_buffer batchedAt uuidStr nowTs s
        match o.middleErr with
        | some e =>
            (.error (.postgresError "Exception writing records" e), s',
             [.begin_, .rollback])
        | none =>
            match o.commitErr with
            | some e =>
                (.error (.postgresError "Exception writing records" e), s',
                 [.begin_, .middle, .rollback])
            | none =>
                (.ok (), flush_buffer s', [.begin_, .middle, .commit])

/-- C1 counterexample input: one buffered message with an empty record. -/
def c1Msg : RecordMessage :=
  { record := [], version := none, timeExtracted := none, sequence := none }

/-- C1 counterexample stream: non-empty buffer, one record. -/
def c1Stream : BufferedStream :=
  { mkBufferedStream "users" [] false none none 10 10 with
    buffer := [c1Msg], count := 1, size := 5 }

/-- C1 counterexample: a `COMMIT` failure leaves the buffered records
augmented in place with the batch metadata, so they are not `the same as
before the call` as the claim states: the record payload gained
`_sdc_batched_at` and `_sdc_sequence`. -/
theorem C1_buffer_mutation_counterexample :
    (write_batch ⟨none, none, some "boom"⟩ "BA" "U" 42 c1Stream).2.1.buffer
      ≠ c1Stream.buffer := by
  intro h
  simp [write_batch, c1Stream, process_buffer, process_record_message,
    c1Msg, mkBufferedStream, dinsert, dget, isNoneVal, SINGER_BATCHED_AT,
    SINGER_SEQUENCE] at h

/-- C1 (amended): with a non-empty buffer, if `BEGIN`, the body and
`COMMIT` all succeed the buffer is flushed only after `COMMIT` (result
state is the flush of the processed buffer, the event trace ends in
`COMMIT`); if any phase raises, `ROLLBACK` runs, a `PostgresError`
wrapping the original error is raised, and the buffer is left unflushed —
`count` and `size` exactly as before, the same messages in order, but
with their record payloads augmented in place once the processing loop
has run. -/
theorem C1_write_batch_transaction (o : WBOracle)
    (batchedAt uuidStr : String) (nowTs : Int) (s : BufferedStream)
    (hc : s.count ≠ 0) :
    (o.beginErr = none → o.middleErr = none → o.commitErr = none →
      write_batch o batchedAt uuidStr nowTs s =
        (.ok (), flush_buffer (process_buffer batchedAt uuidStr nowTs s),
         [.begin_, .middle, .commit]))
    ∧ (∀ e, o.beginErr = some e →
        write_batch o batchedAt uuidStr nowTs s =
          (.error (.postgresError "Exception writing records" e), s,
           [.rollback]))
    ∧ (∀ e, o.beginErr = none → o.middleErr = some e →
        write_batch o batchedAt uuidStr nowTs s =
          (.error (.postgresError "Exception writing records" e),
           process_buffer batchedAt uuidStr nowTs s, [.begin_, .rollback]))
    ∧ (∀ e, o.beginErr = none → o.middleErr = none → o.commitErr = some e →
        write_batch o batchedAt uuidStr nowTs s =
          (.error (.postgresError "Exception writing records" e),
           process_buffer batchedAt uuidStr nowTs s,
           [.begin_, .middle, .rollback]))
    ∧ (process_buffer batchedAt uuidStr nowTs s).count = s.count
    ∧ (process_buffer batchedAt uuidStr nowTs s).size = s.size
    ∧ (process_buffer batchedAt uuidStr nowTs s).buffer.length
        = s.buffer.length := by
  refine ⟨?_, ?_, ?_, ?_, rfl, rfl, by simp [process_buffer]⟩
  · intro h1 h2 h3
    simp [write_batch, hc, h1, h2, h3]
  · intro e h1
    simp [write_batch, hc, h1]
  · intro e h1 h2
    simp [write_batch, hc, h1, h2]
  · intro e h1 h2 h3
    simp [write_batch, hc, h1, h2, h3]

/-- C1 witness: the commit-failure case of the transaction theorem at the
counterexample input. -/
theorem C1_write_batch_transaction_witness :
    c1Stream.count ≠ 0
    ∧ write_batch ⟨none, none, some "boom"⟩ "BA" "U" 42 c1Stream =
        (.error (.postgresError "Exception writing records" "boom"),
         process_buffer "BA" "U" 42 c1Stream, [.begin_, .middle, .rollback]) :=
  ⟨by simp [c1Stream],
   (C1_write_batch_transaction ⟨none, none, some "boom"⟩ "BA" "U" 42
       c1Stream (by simp [c1Stream])).2.2.2.1 "boom" rfl rfl rfl⟩

/-! Embedding of `SQLInterface.upsert_table_helper` from `sql_base.py`.

The per-column decision chain is translated from the source. The column
schemas it compares come from the repository's `json_schema` module,
which is not among the sources; `is_nullable`, `make_nullable`,
`sql_shorthand` and `to_sql` below are modelled from the specification
(§4.1) and say so. The remote-side operations (`add_column`,
`drop_column`, `migrate_column`, `add_column_mapping`,
`drop_column_mapping`, `make_column_nullable`) are abstract methods of
`SQLInterface`; the embedding records them as an operation list and
`applyOps` gives their effect on the remote table schema, modelled from
their doc strings and the specification. -/

/-- Generic association-list lookup for the schema maps. -/
def aget {α : Type} (l : List (String × α)) (k : String) : Option α :=
  match l with
  | [] => none
  | (k', v) :: rest => if k' = k then some v else aget rest k

/-- Generic association-list overwrite-or-append. -/
def ainsert {α : Type} (l : List (String × α)) (k : String) (v : α) :
    List (String × α) :=
  match l with
  | [] => [(k, v)]
  | (k', v') :: rest =>
      if k' = k then (k', v) :: rest else (k', v') :: ainsert rest k v

/-- Generic association-list deletion (`del d[k]`). -/
def adelete {α : Type} (l : List (String × α)) (k : String) :
    List (String × α) :=
  match l with
  | [] => []
  | (k', v') :: rest =>
      if k' = k then rest else (k', v') :: adelete rest k

theorem aget_ainsert_self {α : Type} (l : List (String × α)) (k : String)
    (v : α) : aget (ainsert l k v) k = some v := by
  induction l with
  | nil => simp [ainsert, aget]
  | cons hd tl ih =>
      obtain ⟨k', v'⟩ := hd
      by_cases h : k' = k
      · simp [ainsert, aget, h]
      · simp [ainsert, aget, h, ih]

theorem aget_ainsert_ne {α : Type} (l : List (String × α)) (k k' : String)
    (v : α) (h : k ≠ k') : aget (ainsert l k v) k' = aget l k' := by
  induction l with
  | nil => simp [ainsert, aget, h]
  | cons hd tl ih =>
      obtain ⟨k0, v0⟩ := hd
      by_cases h0 : k0 = k
      · subst h0
        simp [ainsert, aget, h]
      · simp [ainsert, aget, h0, ih]

theorem aget_mem {α : Type} {l : List (String × α)} {k : String} {v : α}
    (h : aget l k = some v) : (k, v) ∈ l := by
  induction l with
  | nil => simp [aget] at h
  | cons hd tl ih =>
      obtain ⟨k0, v0⟩ := hd
      by_cases h0 : k0 = k
      · subst h0
        simp [aget] at h
        simp [h]
      · simp [aget, h0] at h
        exact List.mem_cons_of_mem _ (ih h)

theorem aget_adelete_self {α : Type} (l : List (String × α)) (k : String)
    (hnd : (l.map Prod.fst).Nodup) : aget (adelete l k) k = none := by
  induction l with
  | nil => simp [adelete, aget]
  | cons hd tl ih =>
      obtain ⟨k0, v0⟩ := hd
      have hnd' : (∀ x : α, (k0, x) ∉ tl) ∧ (tl.map Prod.fst).Nodup := by
        simpa using hnd
      by_cases h0 : k0 = k
      · subst h0
        have hdel : adelete ((k0, v0) :: tl) k0 = tl := by simp [adelete]
        rw [hdel]
        cases hag : aget tl k0 with
        | none => rfl
        | some x =>
            exact absurd (aget_mem hag) (hnd'.1 x)
      · simp [adelete, aget, h0, ih hnd'.2]

theorem aget_adelete_ne {α : Type} (l : List (String × α)) (k k' : String)
    (h : k ≠ k') : aget (adelete l k) k' = aget l k' := by
  induction l with
  | nil => simp [adelete, aget]
  | cons hd tl ih =>
      obtain ⟨k0, v0⟩ := hd
      by_cases h0 : k0 = k
      · subst h0
        simp [adelete, aget, h]
      · simp [adelete, aget, h0, ih]

/-- Modelled from the spec: a simplified JSON column schema — a `type`
list that may contain `null`, plus an optional `format` (`date-time`
marks datetimes). This is the shape `json_schema.simplify` normalizes to
(spec §4.1). -/
structure JSch where
  typ : List String
  format : Option String
deriving DecidableEq, Repr

/-- Modelled from the spec: `json_schema.is_nullable` — the `type` list
contains `null`. -/
def is_nullable (s : JSch) : Bool := s.typ.contains "null"

/-- Modelled from the spec: `json_schema.make_nullable` — add `null` to
the `type` list when absent. -/
def make_nullable (s : JSch) : JSch :=
  if is_nullable s then s else { s with typ := s.typ ++ ["null"] }

/-- Modelled from the spec: the stable type-family tag of
`json_schema.sql_shorthand` (`s`, `i`, `b`, `f` for string / integer /
boolean / number, `t` for `date-time`-formatted strings), computed from
the first non-`null` entry of the `type` list. -/
def shorthand_of (typ : List String) (format : Option String) : String :=
  let core := (typ.filter (fun t => t ≠ "null")).headD ""
  if core = "string" ∧ format = some "date-time" then "t"
  else if core = "string" then "s"
  else if core = "integer" then "i"
  else if core = "boolean" then "b"
  else if core = "number" then "f"
  else core

/-- Modelled from the spec: `json_schema.sql_shorthand` on a column
schema. -/
def sql_shorthand (s : JSch) : String := shorthand_of s.typ s.format

/-- Modelled from the spec: `json_schema.to_sql` renders the vendor SQL
column type; the render is determined by — and only by — the type family
and the nullability, which is the spec's invariant `to_sql is injective
over sql_shorthand`. The embedding keeps it as that pair. -/
def to_sql (s : JSch) : String × Bool := (sql_shorthand s, is_nullable s)

/-- `_mapping_name` from `sql_base.py`:
`field + SEPARATOR + sql_shorthand(schema)`. -/
def mapping_name (field : String) (s : JSch) : String :=
  field ++ SEP_TOKEN ++ sql_shorthand s

theorem sql_shorthand_make_nullable (s : JSch) :
    sql_shorthand (make_nullable s) = sql_shorthand s := by
  unfold make_nullable
  by_cases h : is_nullable s
  · simp [h]
  · rw [if_neg h]
    simp [sql_shorthand, shorthand_of, List.filter_append]

/-- A mapping entry of a TABLE_SCHEMA: `add_column_mapping` stores
`mapped_name -> (json_schema.get_type(schema), raw_name)` per its doc
string in `sql_base.py`. -/
structure MappingEntry where
  typ : List String
  fromField : String
deriving DecidableEq, Repr

/-- `SQLInterface._get_mapping`: invert `existing_schema['mappings']` over
the pair (raw field, shorthand) — a Python dict comprehension keeps the
last entry for a duplicated key — and look up the mapped column name. -/
def get_mapping (mappings : List (String × MappingEntry)) (field : String)
    (s : JSch) : Option String :=
  (mappings.reverse.find? (fun p =>
      p.2.fromField == field
        && shorthand_of p.2.typ none == sql_shorthand s)).map Prod.fst

/-- The remote-side schema operations `upsert_table_helper` issues, in
order. -/
inductive SchemaOp where
  | addColumn (table name : String) (sch : JSch)
  | dropColumn (table name : String)
  | migrateColumn (table fromCol toCol : String)
  | makeColumnNullable (table name : String)
  | addColumnMapping (table rawName mappedName : String) (sch : JSch)
  | dropColumnMapping (table name : String)
deriving DecidableEq, Repr

/-- The loop state of `upsert_table_helper`: the local mirror
`existing_columns`, the list `existing_columns_raw_names`, and the
operations issued so far. -/
structure UpsertState where
  cols : List (String × JSch)
  rawNames : List String
  ops : List SchemaOp
deriving DecidableEq, Repr

/-- Errors raised by `upsert_table_helper`. -/
inductive UpsertErr where
  | nameCollision (raw canon typed : String)
deriving DecidableEq, Repr

/-- The SQL-type comparison `to_sql(a) == to_sql(b)` against an optional
existing column (`name in existing_columns and to_sql(...) == ...`). -/
def sqlEq (o : Option JSch) (s : JSch) : Bool :=
  match o with
  | some ex => decide (to_sql s = to_sql ex)
  | none => false

/-- One iteration of the `for raw_column_name, column_schema` loop of
`upsert_table_helper`, translated branch by branch: NAME COLLISION, the
four EXISTING-COLUMNS no-ops, NULL COMPATIBILITY, FIRST DUPLICATE TYPE,
MULTI DUPLICATE TYPE, and the four NEW COLUMN cases (whose conditions are
exhaustive, so the source's final UNKNOWN branch is unreachable). -/
def upsert_column (canonicalize : String → String) (tableName : String)
    (tableEmpty : Bool) (mappings0 : List (String × MappingEntry))
    (st : UpsertState) (raw : String) (sch : JSch) :
    Except UpsertErr UpsertState :=
  let c := canonicalize raw
  let tc := mapping_name c sch
  let nsch := make_nullable sch
  if raw ≠ c ∧ raw ∉ st.rawNames ∧
      ((aget st.cols c).isSome ∨ (aget st.cols tc).isSome) then
    .error (.nameCollision raw c tc)
  else if sqlEq (aget st.cols c) sch then .ok st
  else if sqlEq (aget st.cols tc) sch then .ok st
  else if sqlEq (aget st.cols c) nsch then .ok st
  else if sqlEq (aget st.cols tc) nsch then .ok st
  else
    match aget st.cols c with
    | some ex =>
        if to_sql nsch = to_sql (make_nullable ex) then
          .ok { st with
                cols := ainsert st.cols c (make_nullable ex),
                ops := st.ops ++ [.makeColumnNullable tableName c] }
        else
          .ok { st with
                cols := adelete
                  (ainsert (ainsert st.cols (mapping_name c ex)
                      (make_nullable ex))
                    (mapping_name c sch) nsch) c,
                ops := st.ops
                  ++ (if (get_mapping mappings0 raw ex).isSome
                      then [SchemaOp.dropColumnMapping tableName c] else [])
                  ++ [.addColumnMapping tableName raw (mapping_name c ex)
                        (make_nullable ex),
                      .addColumnMapping tableName raw (mapping_name c sch)
                        nsch,
                      .addColumn tableName (mapping_name c ex)
                        (make_nullable ex),
                      .addColumn tableName (mapping_name c sch) nsch,
                      .migrateColumn tableName c (mapping_name c ex),
                      .dropColumn tableName c] }
    | none =>
        if raw ∈ st.rawNames then
          .ok { cols := ainsert st.cols tc nsch,
                rawNames := st.rawNames ++ [tc],
                ops := st.ops
                  ++ [.addColumnMapping tableName raw tc nsch,
                      .addColumn tableName tc nsch] }
        else if c = raw ∧ tableEmpty then
          .ok { st with
                cols := ainsert st.cols c sch,
                ops := st.ops ++ [.addColumn tableName c sch] }
        else if c = raw then
          .ok { st with
                cols := ainsert st.cols c nsch,
                ops := st.ops ++ [.addColumn tableName c nsch] }
        else if tableEmpty then
          .ok { cols := ainsert st.cols c sch,
                rawNames := st.rawNames ++ [c],
                ops := st.ops
                  ++ [.addColumnMapping tableName raw c sch,
                      .addColumn tableName c sch] }
        else
          .ok { cols := ainsert st.cols c nsch,
                rawNames := st.rawNames ++ [c],
                ops := st.ops
                  ++ [.addColumnMapping tableName raw c nsch,
                      .addColumn tableName c nsch] }

/-- The column loop of `upsert_table_helper`. -/
def upsert_columns (canonicalize : String → String) (tableName : String)
    (tableEmpty : Bool) (mappings0 : List (String × MappingEntry)) :
    UpsertState → List (String × JSch) → Except UpsertErr UpsertState
  | st, [] => .ok st
  | st, (raw, sch) :: rest =>
      match upsert_column canonicalize tableName tableEmpty mappings0 st
          raw sch with
      | .error e => .error e
      | .ok st' =>
          upsert_columns canonicalize tableName tableEmpty mappings0 st' rest

/-- `SQLInterface.upsert_table_helper`: fold the per-column reconciliation
over the streamed columns, starting from the remote columns, the raw
names recorded in the remote mappings, and no operations issued. -/
def upsert_table_helper (canonicalize : String → String) (tableName : String)
    (tableEmpty : Bool) (existingCols : List (String × JSch))
    (mappings0 : List (String × MappingEntry))
    (newCols : List (String × JSch)) : Except UpsertErr UpsertState :=
  upsert_columns canonicalize tableName tableEmpty mappings0
    { cols := existingCols,
      rawNames := mappings0.map (fun p => p.2.fromField),
      ops := [] } newCols

/-- Modelled from the spec: the remote table schema the operations act
on — its columns, its recorded mappings, and the data migrations
performed. -/
structure Remote where
  columns : List (String × JSch)
  mappings : List (String × MappingEntry)
  dataMoves : List (String × String)
deriving DecidableEq, Repr

/-- Modelled from the spec and the `SQLInterface` doc strings: the effect
of one schema operation on the remote table. -/
def applyOp (r : Remote) : SchemaOp → Remote
  | .addColumn _ n s => { r with columns := ainsert r.columns n s }
  | .dropColumn _ n => { r with columns := adelete r.columns n }
  | .migrateColumn _ a b => { r with dataMoves := r.dataMoves ++ [(a, b)] }
  | .makeColumnNullable _ n =>
      { r with columns :=
          match aget r.columns n with
          | some s => ainsert r.columns n (make_nullable s)
          | none => r.columns }
  | .addColumnMapping _ rawName m s =>
      { r with mappings := ainsert r.mappings m ⟨s.typ, rawName⟩ }
  | .dropColumnMapping _ n => { r with mappings := adelete r.mappings n }

/-- Replay of an operation list against a remote table. -/
def applyOps (r : Remote) (ops : List SchemaOp) : Remote :=
  ops.foldl applyOp r

theorem mem_ainsert {α : Type} {l : List (String × α)} {k : String} {v : α}
    {p : String × α} (h : p ∈ ainsert l k v) : p ∈ l ∨ p = (k, v) := by
  induction l with
  | nil => simp [ainsert] at h; simp [h]
  | cons hd tl ih =>
      obtain ⟨k0, v0⟩ := hd
      by_cases h0 : k0 = k
      · simp [ainsert, h0] at h
        rcases h with h | h
        · right; simp [h, h0]
        · left; exact List.mem_cons_of_mem _ h
      · simp [ainsert, h0] at h
        rcases h with h | h
        · left; simp [h]
        · rcases ih h with h1 | h1
          · left; exact List.mem_cons_of_mem _ h1
          · right; exact h1

theorem ainsert_keys_nodup {α : Type} {l : List (String × α)} (k : String)
    (v : α) (hnd : (l.map Prod.fst).Nodup) :
    ((ainsert l k v).map Prod.fst).Nodup := by
  induction l with
  | nil => simp [ainsert]
  | cons hd tl ih =>
      obtain ⟨k0, v0⟩ := hd
      have hnd' : (∀ x : α, (k0, x) ∉ tl) ∧ (tl.map Prod.fst).Nodup := by
        simpa using hnd
      by_cases h0 : k0 = k
      · subst h0
        simp only [ainsert, if_pos rfl]
        simpa using hnd'
      · simp only [ainsert, if_neg h0]
        have : (∀ x : α, (k0, x) ∉ ainsert tl k v)
            ∧ ((ainsert tl k v).map Prod.fst).Nodup := by
          refine ⟨?_, ih hnd'.2⟩
          intro x hx
          rcases mem_ainsert hx with h1 | h1
          · exact hnd'.1 x h1
          · exact h0 (congrArg Prod.fst h1)
        simpa using this

theorem str_append_cancel_left {a b c : String} (h : a ++ b = a ++ c) :
    b = c := by
  have hd : (a ++ b).data = (a ++ c).data := congrArg String.data h
  simp [String.data_append] at hd
  exact String.ext hd

theorem mapping_name_ne {c : String} {a b : JSch}
    (h : sql_shorthand a ≠ sql_shorthand b) :
    mapping_name c a ≠ mapping_name c b := by
  intro he
  exact h (str_append_cancel_left he)

theorem base_ne_mapping_name (c : String) (s : JSch) :
    c ≠ mapping_name c s :=
  str_ne_of_length_lt (length_lt_sep_append c (sql_shorthand s))

/-- C2: a streamed column whose canonicalized name is an existing remote
column of a different SQL type family — with the exact, nullable-exact
and null-compatibility cases ruled out — takes the FIRST DUPLICATE TYPE
branch: it drops the prior mapping to the canonical name when one exists;
registers `canonical__<old-shorthand>` and `canonical__<new-shorthand>`
as mappings from the raw name; adds both as nullable columns; migrates
the canonical column's data into `canonical__<old-shorthand>`; and drops
the canonical column, which afterwards is bound neither in the helper's
column mirror nor in the replayed remote schema, while the two typed
columns are present, nullable, and mapped from the raw name. A singleton
`upsert_table_helper` call is exactly this per-column step. -/
theorem C2_first_type_split (canonicalize : String → String)
    (tableName : String) (tableEmpty : Bool)
    (mappings0 : List (String × MappingEntry)) (st : UpsertState)
    (raw : String) (sch ex : JSch)
    (hndc : (st.cols.map Prod.fst).Nodup)
    (hc : aget st.cols (canonicalize raw) = some ex)
    (hdiff : sql_shorthand sch ≠ sql_shorthand ex)
    (hnc : raw = canonicalize raw ∨ raw ∈ st.rawNames)
    (htc : ∀ e,
        aget st.cols (mapping_name (canonicalize raw) sch) = some e →
        to_sql sch ≠ to_sql e ∧ to_sql (make_nullable sch) ≠ to_sql e) :
    (upsert_column canonicalize tableName tableEmpty mappings0 st raw sch
      = .ok
        { cols := adelete
            (ainsert (ainsert st.cols
                (mapping_name (canonicalize raw) ex) (make_nullable ex))
              (mapping_name (canonicalize raw) sch) (make_nullable sch))
            (canonicalize raw),
          rawNames := st.rawNames,
          ops := st.ops
            ++ (if (get_mapping mappings0 raw ex).isSome
                then [SchemaOp.dropColumnMapping tableName
                        (canonicalize raw)]
                else [])
            ++ [.addColumnMapping tableName raw
                  (mapping_name (canonicalize raw) ex) (make_nullable ex),
                .addColumnMapping tableName raw
                  (mapping_name (canonicalize raw) sch) (make_nullable sch),
                .addColumn tableName (mapping_name (canonicalize raw) ex)
                  (make_nullable ex),
                .addColumn tableName (mapping_name (canonicalize raw) sch)
                  (make_nullable sch),
                .migrateColumn tableName (canonicalize raw)
                  (mapping_name (canonicalize raw) ex),
                .dropColumn tableName (canonicalize raw)] })
    ∧ aget (adelete
        (ainsert (ainsert st.cols
            (mapping_name (canonicalize raw) ex) (make_nullable ex))
          (mapping_name (canonicalize raw) sch) (make_nullable sch))
        (canonicalize raw)) (canonicalize raw) = none
    ∧ aget (adelete
        (ainsert (ainsert st.cols
            (mapping_name (canonicalize raw) ex) (make_nullable ex))
          (mapping_name (canonicalize raw) sch) (make_nullable sch))
        (canonicalize raw)) (mapping_name (canonicalize raw) ex)
        = some (make_nullable ex)
    ∧ aget (adelete
        (ainsert (ainsert st.cols
            (mapping_name (canonicalize raw) ex) (make_nullable ex))
          (mapping_name (canonicalize raw) sch) (make_nullable sch))
        (canonicalize raw)) (mapping_name (canonicalize raw) sch)
        = some (make_nullable sch)
    ∧ is_nullable (make_nullable ex) = true
    ∧ is_nullable (make_nullable sch) = true
    ∧ (∀ r : Remote, (r.columns.map Prod.fst).Nodup →
        aget (applyOps r
            ((if (get_mapping mappings0 raw ex).isSome
              then [SchemaOp.dropColumnMapping tableName (canonicalize raw)]
              else [])
             ++ [.addColumnMapping tableName raw
                   (mapping_name (canonicalize raw) ex) (make_nullable ex),
                 .addColumnMapping tableName raw
                   (mapping_name (canonicalize raw) sch) (make_nullable sch),
                 .addColumn tableName (mapping_name (canonicalize raw) ex)
                   (make_nullable ex),
                 .addColumn tableName (mapping_name (canonicalize raw) sch)
                   (make_nullable sch),
                 .migrateColumn tableName (canonicalize raw)
                   (mapping_name (canonicalize raw) ex),
                 .dropColumn tableName (canonicalize raw)])).columns
          (canonicalize raw) = none
        ∧ aget (applyOps r
            ((if (get_mapping mappings0 raw ex).isSome
              then [SchemaOp.dropColumnMapping tableName (canonicalize raw)]
              else [])
             ++ [.addColumnMapping tableName raw
                   (mapping_name (canonicalize raw) ex) (make_nullable ex),
                 .addColumnMapping tableName raw
                   (mapping_name (canonicalize raw) sch) (make_nullable sch),
                 .addColumn tableName (mapping_name (canonicalize raw) ex)
                   (make_nullable ex),
                 .addColumn tableName (mapping_name (canonicalize raw) sch)
                   (make_nullable sch),
                 .migrateColumn tableName (canonicalize raw)
                   (mapping_name (canonicalize raw) ex),
                 .dropColumn tableName (canonicalize raw)])).columns
          (mapping_name (canonicalize raw) ex) = some (make_nullable ex)
        ∧ aget (applyOps r
            ((if (get_mapping mappings0 raw ex).isSome
              then [SchemaOp.dropColumnMapping tableName (canonicalize raw)]
              else [])
             ++ [.addColumnMapping tableName raw
                   (mapping_name (canonicalize raw) ex) (make_nullable ex),
                 .addColumnMapping tableName raw
                   (mapping_name (canonicalize raw) sch) (make_nullable sch),
                 .addColumn tableName (mapping_name (canonicalize raw) ex)
                   (make_nullable ex),
                 .addColumn tableName (mapping_name (canonicalize raw) sch)
                   (make_nullable sch),
                 .migrateColumn tableName (canonicalize raw)
                   (mapping_name (canonicalize raw) ex),
                 .dropColumn tableName (canonicalize raw)])).columns
          (mapping_name (canonicalize raw) sch) = some (make_nullable sch)
        ∧ aget (applyOps r
            ((if (get_mapping mappings0 raw ex).isSome
              then [SchemaOp.dropColumnMapping tableName (canonicalize raw)]
              else [])
             ++ [.addColumnMapping tableName raw
                   (mapping_name (canonicalize raw) ex) (make_nullable ex),
                 .addColumnMapping tableName raw
                   (mapping_name (canonicalize raw) sch) (make_nullable sch),
                 .addColumn tableName (mapping_name (canonicalize raw) ex)
                   (make_nullable ex),
                 .addColumn tableName (mapping_name (canonicalize raw) sch)
                   (make_nullable sch),
                 .migrateColumn tableName (canonicalize raw)
                   (mapping_name (canonicalize raw) ex),
                 .dropColumn tableName (canonicalize raw)])).mappings
          (mapping_name (canonicalize raw) ex)
          = some ⟨(make_nullable ex).typ, raw⟩
        ∧ aget (applyOps r
            ((if (get_mapping mappings0 raw ex).isSome
              then [SchemaOp.dropColumnMapping tableName (canonicalize raw)]
              else [])
             ++ [.addColumnMapping tableName raw
                   (mapping_name (canonicalize raw) ex) (make_nullable ex),
                 .addColumnMapping tableName raw
                   (mapping_name (canonicalize raw) sch) (make_nullable sch),
                 .addColumn tableName (mapping_name (canonicalize raw) ex)
                   (make_nullable ex),
                 .addColumn tableName (mapping_name (canonicalize raw) sch)
                   (make_nullable sch),
                 .migrateColumn tableName (canonicalize raw)
                   (mapping_name (canonicalize raw) ex),
                 .dropColumn tableName (canonicalize raw)])).mappings
          (mapping_name (canonicalize raw) sch)
          = some ⟨(make_nullable sch).typ, raw⟩
        ∧ (canonicalize raw, mapping_name (canonicalize raw) ex)
            ∈ (applyOps r
            ((if (get_mapping mappings0 raw ex).isSome
              then [SchemaOp.dropColumnMapping tableName (canonicalize raw)]
              else [])
             ++ [.addColumnMapping tableName raw
                   (mapping_name (canonicalize raw) ex) (make_nullable ex),
                 .addColumnMapping tableName raw
                   (mapping_name (canonicalize raw) sch) (make_nullable sch),
                 .addColumn tableName (mapping_name (canonicalize raw) ex)
                   (make_nullable ex),
                 .addColumn tableName (mapping_name (canonicalize raw) sch)
                   (make_nullable sch),
                 .migrateColumn tableName (canonicalize raw)
                   (mapping_name (canonicalize raw) ex),
                 .dropColumn tableName (canonicalize raw)])).dataMoves)
    ∧ (∀ (existingCols : List (String × JSch))
          (m0 : List (String × MappingEntry)) (raw' : String) (sch' : JSch),
        upsert_table_helper canonicalize tableName tableEmpty existingCols
            m0 [(raw', sch')]
          = upsert_column canonicalize tableName tableEmpty m0
              { cols := existingCols,
                rawNames := m0.map (fun p => p.2.fromField),
                ops := [] } raw' sch') := by
  have hshn : sql_shorthand (make_nullable sch) = sql_shorthand sch :=
    sql_shorthand_make_nullable sch
  have hshx : sql_shorthand (make_nullable ex) = sql_shorthand ex :=
    sql_shorthand_make_nullable ex
  have hemnm : mapping_name (canonicalize raw) ex
      ≠ mapping_name (canonicalize raw) sch :=
    mapping_name_ne (Ne.symm hdiff)
  have hcem : canonicalize raw ≠ mapping_name (canonicalize raw) ex :=
    base_ne_mapping_name _ _
  have hcnm : canonicalize raw ≠ mapping_name (canonicalize raw) sch :=
    base_ne_mapping_name _ _
  have hcolsnd :
      ((ainsert (ainsert st.cols
          (mapping_name (canonicalize raw) ex) (make_nullable ex))
        (mapping_name (canonicalize raw) sch)
        (make_nullable sch)).map Prod.fst).Nodup :=
    ainsert_keys_nodup _ _ (ainsert_keys_nodup _ _ hndc)
  have hbranch :
      upsert_column canonicalize tableName tableEmpty mappings0 st raw sch
        = .ok
          { cols := adelete
              (ainsert (ainsert st.cols
                  (mapping_name (canonicalize raw) ex) (make_nullable ex))
                (mapping_name (canonicalize raw) sch) (make_nullable sch))
              (canonicalize raw),
            rawNames := st.rawNames,
            ops := st.ops
              ++ (if (get_mapping mappings0 raw ex).isSome
                  then [SchemaOp.dropColumnMapping tableName
                          (canonicalize raw)]
                  else [])
              ++ [.addColumnMapping tableName raw
                    (mapping_name (canonicalize raw) ex) (make_nullable ex),
                  .addColumnMapping tableName raw
                    (mapping_name (canonicalize raw) sch)
                    (make_nullable sch),
                  .addColumn tableName (mapping_name (canonicalize raw) ex)
                    (make_nullable ex),
                  .addColumn tableName (mapping_name (canonicalize raw) sch)
                    (make_nullable sch),
                  .migrateColumn tableName (canonicalize raw)
                    (mapping_name (canonicalize raw) ex),
                  .dropColumn tableName (canonicalize raw)] } := by
    have hno : ¬(raw ≠ canonicalize raw ∧ raw ∉ st.rawNames ∧
        ((aget st.cols (canonicalize raw)).isSome
          ∨ (aget st.cols
              (mapping_name (canonicalize raw) sch)).isSome)) := by
      rintro ⟨ha, hb, _⟩
      rcases hnc with h | h
      · exact ha h
      · exact hb h
    have h2 : sqlEq (aget st.cols (canonicalize raw)) sch = false := by
      rw [hc]
      simp only [sqlEq]
      apply decide_eq_false
      intro he
      exact hdiff (congrArg Prod.fst he)
    have h4 : sqlEq (aget st.cols (canonicalize raw))
        (make_nullable sch) = false := by
      rw [hc]
      simp only [sqlEq]
      apply decide_eq_false
      intro he
      have := congrArg Prod.fst he
      rw [show ((to_sql (make_nullable sch)).1 = sql_shorthand
          (make_nullable sch)) from rfl, hshn] at this
      exact hdiff this
    have h3 : sqlEq (aget st.cols (mapping_name (canonicalize raw) sch))
        sch = false := by
      cases hg : aget st.cols (mapping_name (canonicalize raw) sch) with
      | none => rfl
      | some e =>
          simp only [sqlEq]
          exact decide_eq_false (htc e hg).1
    have h5 : sqlEq (aget st.cols (mapping_name (canonicalize raw) sch))
        (make_nullable sch) = false := by
      cases hg : aget st.cols (mapping_name (canonicalize raw) sch) with
      | none => rfl
      | some e =>
          simp only [sqlEq]
          exact decide_eq_false (htc e hg).2
    have hnullc : ¬(to_sql (make_nullable sch)
        = to_sql (make_nullable ex)) := by
      intro he
      have := congrArg Prod.fst he
      rw [show ((to_sql (make_nullable sch)).1 = sql_shorthand
          (make_nullable sch)) from rfl, hshn] at this
      rw [show ((to_sql (make_nullable ex)).1 = sql_shorthand
          (make_nullable ex)) from rfl, hshx] at this
      exact hdiff this
    unfold upsert_column
    rw [if_neg hno]
    simp only [h2, h3, h4, h5, if_false, Bool.false_eq_true]
    rw [hc]
    simp only [if_neg hnullc]
  refine ⟨hbranch, ?_, ?_, ?_, ?_, ?_, ?_, ?_⟩
  · exact aget_adelete_self _ _ hcolsnd
  · rw [aget_adelete_ne _ _ _ hcem,
      aget_ainsert_ne _ _ _ _ (Ne.symm hemnm), aget_ainsert_self]
  · rw [aget_adelete_ne _ _ _ hcnm, aget_ainsert_self]
  · unfold make_nullable
    by_cases h : is_nullable ex
    · simp [h]
    · rw [if_neg h]
      simp [is_nullable]
  · unfold make_nullable
    by_cases h : is_nullable sch
    · simp [h]
    · rw [if_neg h]
      simp [is_nullable]
  · intro r hrnd
    cases hdp : (get_mapping mappings0 raw ex).isSome with
    | true =>
        simp only [hdp, if_true, applyOps, List.cons_append, List.nil_append,
          List.foldl_cons, List.foldl_nil, applyOp]
        refine ⟨?_, ?_, ?_, ?_, ?_, ?_⟩
        · exact aget_adelete_self _ _
            (ainsert_keys_nodup _ _ (ainsert_keys_nodup _ _ hrnd))
        · rw [aget_adelete_ne _ _ _ hcem,
            aget_ainsert_ne _ _ _ _ (Ne.symm hemnm), aget_ainsert_self]
        · rw [aget_adelete_ne _ _ _ hcnm, aget_ainsert_self]
        · rw [aget_ainsert_ne _ _ _ _ (Ne.symm hemnm), aget_ainsert_self]
        · rw [aget_ainsert_self]
        · simp
    | false =>
        simp only [hdp, Bool.false_eq_true, if_false, applyOps,
          List.cons_append, List.nil_append, List.foldl_cons,
          List.foldl_nil, applyOp]
        refine ⟨?_, ?_, ?_, ?_, ?_, ?_⟩
        · exact aget_adelete_self _ _
            (ainsert_keys_nodup _ _ (ainsert_keys_nodup _ _ hrnd))
        · rw [aget_adelete_ne _ _ _ hcem,
            aget_ainsert_ne _ _ _ _ (Ne.symm hemnm), aget_ainsert_self]
        · rw [aget_adelete_ne _ _ _ hcnm, aget_ainsert_self]
        · rw [aget_ainsert_ne _ _ _ _ (Ne.symm hemnm), aget_ainsert_self]
        · rw [aget_ainsert_self]
        · simp
  · intro existingCols m0 raw' sch'
    unfold upsert_table_helper upsert_columns
    cases upsert_column canonicalize tableName tableEmpty m0
        { cols := existingCols,
          rawNames := m0.map (fun p => p.2.fromField),
          ops := [] } raw' sch' with
    | error e => rfl
    | ok st' => rfl

/-- C2 witness: `age` declared integer then string. The shorthand names
are `age__i` and `age__s`, the first-type-split branch fires, and after
it the canonical column `age` is gone from the column mirror. -/
theorem C2_first_type_split_witness :
    aget [("age", JSch.mk ["integer"] none)] "age"
        = some (JSch.mk ["integer"] none)
    ∧ sql_shorthand (JSch.mk ["string"] none)
        ≠ sql_shorthand (JSch.mk ["integer"] none)
    ∧ mapping_name "age" (JSch.mk ["integer"] none) = "age__i"
    ∧ mapping_name "age" (JSch.mk ["string"] none) = "age__s"
    ∧ aget (adelete
        (ainsert (ainsert [("age", JSch.mk ["integer"] none)]
            (mapping_name "age" (JSch.mk ["integer"] none))
            (make_nullable (JSch.mk ["integer"] none)))
          (mapping_name "age" (JSch.mk ["string"] none))
          (make_nullable (JSch.mk ["string"] none))) "age") "age" = none :=
  ⟨by decide, by decide, by decide, by decide,
   (C2_first_type_split (fun s => s) "users" false []
      { cols := [("age", JSch.mk ["integer"] none)], rawNames := [],
        ops := [] }
      "age" (JSch.mk ["string"] none) (JSch.mk ["integer"] none)
      (by decide) (by decide) (by decide) (Or.inl rfl)
      (fun e he => by
        rw [show aget [("age", JSch.mk ["integer"] none)]
            (mapping_name ((fun s => s) "age") (JSch.mk ["string"] none))
            = none from by decide] at he
        exact Option.noConfusion he)).2.1⟩

end TargetPostgres
